import Mathlib

/-!
Verification development for the simulated-filesystem engine in
src/utils/fileSystemUtils.ts (and the data model in models/fileSystem.ts).

The TypeScript engine is shallowly embedded:
* plain objects keyed by string ids become association lists
  (`List (String × _)`) whose update semantics mirror JS object spread
  (existing keys keep their position, new keys are appended);
* the JS `Date` clock and the `uuidv4()` fresh-id generator are ambient
  inputs of the source; they are threaded explicitly as a `now : Nat`
  argument and explicit id arguments (freshness of uuids becomes a
  hypothesis where a proof needs it);
* thrown JS exceptions become `Except.error` with the thrown message;
* the two unbounded loops of the source (the ancestor walk in `moveNode`
  and the `parentId` walk in `getNodePath`) and the recursion of
  `removeNode` get an explicit fuel of `nodes.length + 1`, which is more
  than any actual execution of the source can consume.
-/

set_option autoImplicit false

namespace FSim

/-- Permission record: the `Permission` type of models/fileSystem.ts. -/
structure Permission where
  read : Bool
  write : Bool
  execute : Bool
deriving DecidableEq, Repr, Inhabited

/-- The three permission kinds, `keyof Permission` in the source. -/
inductive PermKind where
  | read
  | write
  | execute
deriving DecidableEq, Repr

/-- Field access `perm[permissionType]` of the source. -/
def Permission.get (p : Permission) : PermKind → Bool
  | .read => p.read
  | .write => p.write
  | .execute => p.execute

/-- `FileMetadata` of models/fileSystem.ts; dates are modelled as `Nat`
time stamps supplied by the ambient clock. -/
structure FileMetadata where
  createdAt : Nat
  modifiedAt : Nat
  size : Nat
  type : String
deriving DecidableEq, Repr, Inhabited

/-- The `strategy` union type `contiguous | linked | indexed`. -/
inductive AllocStrategy where
  | contiguous
  | linked
  | indexed
deriving DecidableEq, Repr, Inhabited

/-- The `blockAllocation` field of a `FileNode`. -/
structure BlockAllocation where
  strategy : AllocStrategy
  startBlock : Option Nat
  blocks : List Nat
deriving DecidableEq, Repr, Inhabited

/-- `FileSystemNode` of models/fileSystem.ts.  The source uses a
discriminated union (`DirectoryNode` adds `children`, `FileNode` adds
`content` and `blockAllocation`); the embedding merges the variants into
one record discriminated by `isDirectory`, with the fields of the other
variant inert (directories carry `children`, files carry `content` and
`blockAllocation`, exactly as the discriminated source records do). -/
structure FileSystemNode where
  id : String
  name : String
  isDirectory : Bool
  parentId : Option String
  owner : String
  permissions : List (String × Permission)
  children : List String
  content : String
  blockAllocation : BlockAllocation
  metadata : FileMetadata
deriving DecidableEq, Repr, Inhabited

/-- `User` of models/fileSystem.ts. -/
structure User where
  id : String
  username : String
  isAdmin : Bool
deriving DecidableEq, Repr, Inhabited

/-- `Block` of models/fileSystem.ts. -/
structure Block where
  id : Nat
  fileId : Option String
  nextBlock : Option Nat
  content : String
deriving DecidableEq, Repr, Inhabited

/-- `FileSystem` snapshot of models/fileSystem.ts. -/
structure FileSystem where
  nodes : List (String × FileSystemNode)
  users : List (String × User)
  currentUser : String
  currentDirectory : String
  blocks : List Block
  blockSize : Nat
  totalBlocks : Nat
  allocationStrategy : AllocStrategy
deriving DecidableEq, Repr, Inhabited

/-! ### Association-list primitives mirroring JS object semantics -/

/-- `m[k]` on a JS object: the value stored under key `k`. -/
def mapFind {α : Type} (m : List (String × α)) (k : String) : Option α :=
  match m with
  | [] => none
  | (k', v) :: rest => if k' = k then some v else mapFind rest k

/-- `{...m, [k]: v}` on a JS object: replace in place if the key exists,
append otherwise (JS objects keep the original position of an updated
key and append new keys). -/
def mapSet {α : Type} (m : List (String × α)) (k : String) (v : α) :
    List (String × α) :=
  if m.any (fun p => p.1 = k) then
    m.map (fun p => if p.1 = k then (k, v) else p)
  else
    m ++ [(k, v)]

/-- `const { [k]: _, ...rest } = m`: drop the binding of key `k`. -/
def mapErase {α : Type} (m : List (String × α)) (k : String) :
    List (String × α) :=
  m.filter (fun p => p.1 ≠ k)

/-- Keys of an association list, in order. -/
def mapKeys {α : Type} (m : List (String × α)) : List String :=
  m.map Prod.fst

/-! ### The engine operations of src/utils/fileSystemUtils.ts -/

/-- `initializeFileSystem(blockSize, totalBlocks)`.  The two `uuidv4()`
calls and the clock are passed explicitly as `rootId`, `adminId`, `now`. -/
def initializeFileSystem (blockSize totalBlocks : Nat)
    (rootId adminId : String) (now : Nat) : FileSystem :=
  { nodes := [(rootId,
      { id := rootId
        name := "/"
        isDirectory := true
        parentId := none
        owner := adminId
        permissions := [(adminId, { read := true, write := true, execute := true })]
        children := []
        content := ""
        blockAllocation := { strategy := .contiguous, startBlock := none, blocks := [] }
        metadata := { createdAt := now, modifiedAt := now, size := 0, type := "directory" } })]
    users := [(adminId, { id := adminId, username := "admin", isAdmin := true })]
    currentUser := adminId
    currentDirectory := rootId
    blocks := (List.range totalBlocks).map
      (fun index => { id := index, fileId := none, nextBlock := none, content := "" })
    blockSize := blockSize
    totalBlocks := totalBlocks
    allocationStrategy := .contiguous }

/-- `hasPermission(fs, nodeId, permissionType)`. -/
def hasPermission (fs : FileSystem) (nodeId : String) (k : PermKind) : Bool :=
  match mapFind fs.nodes nodeId, mapFind fs.users fs.currentUser with
  | some node, some user =>
    if user.isAdmin then true
    else
      match mapFind node.permissions user.id with
      | some p => p.get k
      | none => false
  | _, _ => false

/-- `hasPermission(fs, maybeNullId, kind)`: the source indexes
`fs.nodes[null]` when the id is null, which misses, so the check is false. -/
def hasPermissionOpt (fs : FileSystem) (nodeId : Option String) (k : PermKind) : Bool :=
  match nodeId with
  | some i => hasPermission fs i k
  | none => false

/-- `path.split('/')` at the character level (JS splits on every
occurrence of the separator, keeping empty segments). -/
def splitSlashAux : List Char → List Char → List (List Char)
  | [], acc => [acc.reverse]
  | c :: cs, acc =>
    if c = '/' then acc.reverse :: splitSlashAux cs []
    else splitSlashAux cs (c :: acc)

/-- `path.split('/').filter(Boolean)` of `getNodeByPath`. -/
def pathSegments (path : String) : List String :=
  ((splitSlashAux path.data []).map (fun l => String.mk l)).filter (fun s => s ≠ "")

/-- `Object.values(fs.nodes).find(node => node.parentId === null)`:
first node value, in insertion order, whose parent is null. -/
def findRootNode (fs : FileSystem) : Option FileSystemNode :=
  (fs.nodes.find? (fun p => p.2.parentId.isNone)).map (fun p => p.2)

/-- The per-segment loop body of `getNodeByPath`: walk the remaining
segments down from `cur`. -/
def walkSegments (fs : FileSystem) : List String → FileSystemNode → Option FileSystemNode
  | [], cur => some cur
  | part :: rest, cur =>
    if cur.isDirectory then
      match cur.children.find? (fun cid =>
          match mapFind fs.nodes cid with
          | some child => child.name = part
          | none => false) with
      | some cid =>
        match mapFind fs.nodes cid with
        | some child => walkSegments fs rest child
        | none => none
      | none => none
    else none

/-- `getNodeByPath(fs, path)`. -/
def getNodeByPath (fs : FileSystem) (path : String) : Option FileSystemNode :=
  if path = "/" then findRootNode fs
  else
    match findRootNode fs with
    | none => none
    | some root => walkSegments fs (pathSegments path) root

/-- The parent update `{...parent, children: [...parent.children, id],
metadata: {...parent.metadata, modifiedAt: now}}` used by
`createDirectory`, `createFile` and `moveNode`. -/
def childAppended (parent : FileSystemNode) (childId : String) (now : Nat) : FileSystemNode :=
  { parent with
    children := parent.children ++ [childId]
    metadata := { parent.metadata with modifiedAt := now } }

/-- The parent update `{...parent, children: parent.children.filter(id =>
id !== childId), metadata: {...parent.metadata, modifiedAt: now}}` used by
`moveNode` and `removeNode`. -/
def childRemoved (parent : FileSystemNode) (childId : String) (now : Nat) : FileSystemNode :=
  { parent with
    children := parent.children.filter (fun i => i ≠ childId)
    metadata := { parent.metadata with modifiedAt := now } }

/-- The `children.some(childId => { const child = fs.nodes[childId];
return child && child.name === name; })` sibling-name test repeated
verbatim by `createDirectory`, `createFile` and `moveNode`. -/
def nameExists (fs : FileSystem) (children : List String) (name : String) : Bool :=
  children.any (fun childId =>
    match mapFind fs.nodes childId with
    | some child => child.name = name
    | none => false)

/-- The new directory record `createDirectory` constructs. -/
def freshDirRecord (fs : FileSystem) (parentId name newDirId : String)
    (now : Nat) : FileSystemNode :=
  { id := newDirId
    name := name
    isDirectory := true
    parentId := some parentId
    owner := fs.currentUser
    permissions := [(fs.currentUser, { read := true, write := true, execute := true })]
    children := []
    content := ""
    blockAllocation := { strategy := .contiguous, startBlock := none, blocks := [] }
    metadata := { createdAt := now, modifiedAt := now, size := 0, type := "directory" } }

/-- The node map after a successful `createDirectory`: the new record
under the fresh key and the updated parent in place. -/
def createDirNodes (fs : FileSystem) (parentId name newDirId : String)
    (parent : FileSystemNode) (now : Nat) : List (String × FileSystemNode) :=
  mapSet (mapSet fs.nodes newDirId (freshDirRecord fs parentId name newDirId now))
    parentId (childAppended parent newDirId now)

/-- `createDirectory(fs, parentId, name)`; the `uuidv4()` result is the
explicit `newDirId` argument. -/
def createDirectory (fs : FileSystem) (parentId name newDirId : String)
    (now : Nat) : Except String FileSystem :=
  if hasPermission fs parentId .write = false then
    .error "Permission denied"
  else
    match mapFind fs.nodes parentId with
    | none => .error "Parent is not a directory"
    | some parent =>
      if parent.isDirectory = false then .error "Parent is not a directory"
      else if nameExists fs parent.children name then
        .error ("A file or directory named \"" ++ name ++ "\" already exists")
      else
        .ok { fs with nodes := createDirNodes fs parentId name newDirId parent now }

/-- One candidate run is free when every one of its `needed` blocks has
`fileId === null`.  An index beyond the block array would make the source
crash on `undefined.fileId`; it is treated as not free (the scan never
reaches such an index when `blocks.length = totalBlocks`). -/
def runFree (blocks : List Block) (start needed : Nat) : Bool :=
  (List.range needed).all (fun i =>
    match blocks.get? (start + i) with
    | some b => b.fileId.isNone
    | none => false)

/-- The `for (startBlock = 0; startBlock <= totalBlocks - neededBlocks; ...)`
scan: try `count` consecutive start positions from `s` upward, returning
the first whose run is free. -/
def scanStart (blocks : List Block) (needed : Nat) : Nat → Nat → Option Nat
  | 0, _ => none
  | count + 1, s => if runFree blocks s needed then some s else scanStart blocks needed count (s + 1)

/-- `allocateBlocksContiguous(fs, contentSize)`.  `Math.ceil(a/b)` over the
naturals is `(a + b - 1) / b` for `b > 0`; for `blockSize = 0` the source
computes `NaN`/`Infinity` needed blocks, the loop guard is false and the
function returns null, which the embedding states directly. -/
def allocateBlocksContiguous (fs : FileSystem) (contentSize : Nat) : Option (List Nat) :=
  if fs.blockSize = 0 then none
  else
    let neededBlocks := (contentSize + fs.blockSize - 1) / fs.blockSize
    if neededBlocks ≤ fs.totalBlocks then
      (scanStart fs.blocks neededBlocks (fs.totalBlocks - neededBlocks + 1) 0).map
        (fun s => (List.range neededBlocks).map (fun i => s + i))
    else none

/-- `new TextEncoder().encode(content).length`: the UTF-8 byte length. -/
def contentByteLength (content : String) : Nat :=
  content.utf8ByteSize

/-- `content.substring(index*blockSize, (index+1)*blockSize)`: the source
slices UTF-16 code units; the embedding slices code points, which agrees
on every content both use per code unit (all claims only inspect whether
sliced content is empty or which file owns a block). -/
def contentSlice (content : String) (index blockSize : Nat) : String :=
  String.mk ((content.data.drop (index * blockSize)).take blockSize)

/-- One step of the `allocatedBlocks.forEach((blockId, index) => ...)`
loop of `createFile`: write ownership and the content slice for position
`index` into array slot `blockId` (an out-of-range slot is left alone; the
allocator never returns one). -/
def writeBlocksGo (newFileId content : String) (blockSize : Nat) :
    List Nat → Nat → List Block → List Block
  | [], _, bs => bs
  | blockId :: rest, index, bs =>
    writeBlocksGo newFileId content blockSize rest (index + 1)
      (match bs.get? blockId with
       | some b => bs.set blockId
          { b with fileId := some newFileId, content := contentSlice content index blockSize }
       | none => bs)

/-- The `allocatedBlocks.forEach((blockId, index) => updatedBlocks[blockId] = ...)`
loop of `createFile`. -/
def writeBlocks (blocks : List Block) (idxs : List Nat) (newFileId : String)
    (content : String) (blockSize : Nat) : List Block :=
  writeBlocksGo newFileId content blockSize idxs 0 blocks

/-- The new file record `createFile` constructs: its metadata size is the
UTF-8 byte length of the content. -/
def freshFileRecord (fs : FileSystem) (parentId name content ty newFileId : String)
    (blocks : List Nat) (now : Nat) : FileSystemNode :=
  { id := newFileId
    name := name
    isDirectory := false
    parentId := some parentId
    owner := fs.currentUser
    permissions := [(fs.currentUser, { read := true, write := true, execute := false })]
    children := []
    content := content
    blockAllocation :=
      { strategy := fs.allocationStrategy
        startBlock := blocks.head?
        blocks := blocks }
    metadata :=
      { createdAt := now, modifiedAt := now, size := contentByteLength content, type := ty } }

/-- The node map after a successful `createFile`. -/
def createFileNodes (fs : FileSystem) (parentId name content ty newFileId : String)
    (parent : FileSystemNode) (blocks : List Nat) (now : Nat) :
    List (String × FileSystemNode) :=
  mapSet (mapSet fs.nodes newFileId
      (freshFileRecord fs parentId name content ty newFileId blocks now))
    parentId (childAppended parent newFileId now)

/-- `createFile(fs, parentId, name, content, type)`; the `uuidv4()` result
is the explicit `newFileId` argument. -/
def createFile (fs : FileSystem) (parentId name content ty newFileId : String)
    (now : Nat) : Except String FileSystem :=
  if hasPermission fs parentId .write = false then
    .error "Permission denied"
  else
    match mapFind fs.nodes parentId with
    | none => .error "Parent is not a directory"
    | some parent =>
      if parent.isDirectory = false then .error "Parent is not a directory"
      else if nameExists fs parent.children name then
        .error ("A file or directory named \"" ++ name ++ "\" already exists")
      else
        let contentSize := contentByteLength content
        let allocatedBlocks : Option (List Nat) :=
          if fs.allocationStrategy = .contiguous then
            allocateBlocksContiguous fs contentSize
          else none
        match allocatedBlocks with
        | none => .error "Not enough disk space"
        | some blocks =>
          .ok { fs with
            nodes := createFileNodes fs parentId name content ty newFileId parent blocks now
            blocks := writeBlocks fs.blocks blocks newFileId content fs.blockSize }

/-- The `while (current.parentId !== null)` ancestor walk of `moveNode`:
`some true` when the moving node is met, `some false` when a null parent is
reached, `none` when the source would crash on a missing parent record (or
would loop forever, which the fuel cuts off; neither is reachable from a
well-formed snapshot). -/
def cycleWalk (fs : FileSystem) : Nat → FileSystemNode → String → Option Bool
  | 0, _, _ => none
  | fuel + 1, cur, target =>
    match cur.parentId with
    | none => some false
    | some pid =>
      if cur.id = target then some true
      else
        match mapFind fs.nodes pid with
        | some p => cycleWalk fs fuel p target
        | none => none

/-- The node map after a successful `moveNode`: the relocated record,
the old parent with the child filtered out, the new parent with the child
appended — updated in that order, later keys overriding earlier ones as
the object spread of the source does. -/
def moveNodesMap (fs : FileSystem) (nodeId newParentId oldParentId : String)
    (node newParent oldParent : FileSystemNode) (now : Nat) :
    List (String × FileSystemNode) :=
  mapSet (mapSet (mapSet fs.nodes nodeId { node with parentId := some newParentId })
      oldParentId (childRemoved oldParent nodeId now))
    newParentId (childAppended newParent nodeId now)

/-- `moveNode(fs, nodeId, newParentId)`. -/
def moveNode (fs : FileSystem) (nodeId newParentId : String)
    (now : Nat) : Except String FileSystem :=
  match mapFind fs.nodes nodeId with
  | none => .error "Source node not found"
  | some node =>
    match mapFind fs.nodes newParentId with
    | none => .error "Target is not a valid directory"
    | some newParent =>
      if newParent.isDirectory = false then .error "Target is not a valid directory"
      else if (hasPermissionOpt fs node.parentId .write = false) ∨
          (hasPermission fs newParentId .write = false) then
        .error "Permission denied"
      else
        match (if node.isDirectory then cycleWalk fs (fs.nodes.length + 1) newParent node.id
          else some false : Option Bool) with
        | some true => .error "Cannot move a directory into its own subdirectory"
        | none => .error "TypeError"
        | some false =>
          if nameExists fs newParent.children node.name then
            .error ("A file or directory named \"" ++ node.name ++
              "\" already exists in the destination")
          else
            match node.parentId with
            | none => .error "TypeError"
            | some oldParentId =>
              match mapFind fs.nodes oldParentId with
              | none => .error "TypeError"
              | some oldParent =>
                .ok { fs with
                  nodes := moveNodesMap fs nodeId newParentId oldParentId
                    node newParent oldParent now }

/-- Fuel range for the `while` walk of `getNodePath`; one step per
`parentId` link (the source loop is unbounded, but from a well-formed
snapshot the ancestor chain is shorter than the node count). -/
def pathParts (fs : FileSystem) : Nat → FileSystemNode → List String
  | 0, _ => []
  | fuel + 1, cur =>
    match cur.parentId with
    | none => []
    | some pid =>
      match mapFind fs.nodes pid with
      | none => [cur.name]
      | some p => pathParts fs fuel p ++ [cur.name]

/-- `parts.join('/')`. -/
def joinSlash : List String → String
  | [] => ""
  | p :: rest => rest.foldl (fun acc q => acc ++ "/" ++ q) p

/-- `getNodePath(fs, nodeId)`. -/
def getNodePath (fs : FileSystem) (nodeId : String) : String :=
  match mapFind fs.nodes nodeId with
  | none => ""
  | some node =>
    match node.parentId with
    | none => "/"
    | some _ => "/" ++ joinSlash (pathParts fs (fs.nodes.length + 1) node)

/-- `getDirectoryChildren(fs, dirId)`. -/
def getDirectoryChildren (fs : FileSystem) (dirId : String) : List FileSystemNode :=
  match mapFind fs.nodes dirId with
  | none => []
  | some dir =>
    if dir.isDirectory then dir.children.filterMap (fun childId => mapFind fs.nodes childId)
    else []

/-- `getPermissionString(node)`: the source reads the owner entry of the
node's permission table and repeats its rwx triad three times. -/
def getPermissionString (node : FileSystemNode) : String :=
  let isDir := if node.isDirectory then "d" else "-"
  let userPerm := (mapFind node.permissions node.owner).getD
    { read := false, write := false, execute := false }
  let r := if userPerm.read then "r" else "-"
  let w := if userPerm.write then "w" else "-"
  let x := if userPerm.execute then "x" else "-"
  isDir ++ r ++ w ++ x ++ r ++ w ++ x ++ r ++ w ++ x

/-- Resets a block to free: `{...block, fileId: null, nextBlock: null, content: ''}`. -/
def freeBlock (b : Block) : Block :=
  { b with fileId := none, nextBlock := none, content := "" }

/-- The `fileNode.blockAllocation.blocks.forEach(blockId => ...)` freeing
loop of `removeNode` (an out-of-range slot is left alone; a well-formed
file never owns one). -/
def freeBlocks : List Block → List Nat → List Block
  | bs, [] => bs
  | bs, i :: rest =>
    freeBlocks
      (match bs.get? i with
       | some b => bs.set i (freeBlock b)
       | none => bs) rest

/-- The `for (const childId of dirNode.children)` loop of the recursive
branch of `removeNode`: each child's name is read from the snapshot the
enclosing call started from (`origFs`), the removal itself runs on the
accumulated snapshot.  A missing child record would crash the source on
`undefined.name` (modelled as an error). -/
def rmChildrenFold (recurse : FileSystem → String → Except String FileSystem)
    (origFs : FileSystem) (path : String) :
    List String → Except String FileSystem → Except String FileSystem
  | [], acc => acc
  | childId :: rest, acc =>
    rmChildrenFold recurse origFs path rest
      (match acc with
       | .error e => .error e
       | .ok accFs =>
         match mapFind origFs.nodes childId with
         | none => .error "TypeError"
         | some child => recurse accFs (path ++ "/" ++ child.name))

/-- The node map after detaching and deleting `nodeId` from its parent. -/
def removeNodesMap (fs : FileSystem) (nodeId parentId : String)
    (parent : FileSystemNode) (now : Nat) : List (String × FileSystemNode) :=
  mapSet (mapErase fs.nodes nodeId) parentId (childRemoved parent nodeId now)

/-- The snapshot `removeNode` builds before any recursive descent: the
node deleted and detached, and — for a file — its blocks reset to free. -/
def removeStepFs (fs : FileSystem) (node : FileSystemNode) (parentId : String)
    (parent : FileSystemNode) (now : Nat) : FileSystem :=
  { fs with
    nodes := removeNodesMap fs node.id parentId parent now
    blocks :=
      if node.isDirectory then fs.blocks
      else freeBlocks fs.blocks node.blockAllocation.blocks }

/-- `removeNode(fs, path, recursive)`, with explicit recursion fuel (the
source recursion removes at least one node per level, so depth never
exceeds the node count and `fs.nodes.length + 1` fuel is never exhausted
on an actual run). -/
def removeNodeFuel : Nat → FileSystem → String → Bool → Nat → Except String FileSystem
  | 0, _, _, _, _ => .error "recursion limit exceeded"
  | Nat.succ fuel, fs, path, recursive, now =>
    match getNodeByPath fs path with
    | none => .error "No such file or directory"
    | some node =>
      if hasPermission fs node.id .write = false then .error "Permission denied"
      else if node.isDirectory ∧ node.children ≠ [] ∧ recursive = false then
        .error "Directory not empty"
      else
        match node.parentId with
        | none => .error "Cannot remove root directory"
        | some parentId =>
          match mapFind fs.nodes parentId with
          | none => .error "TypeError"
          | some parent =>
            if node.isDirectory ∧ recursive then
              rmChildrenFold (fun accFs p => removeNodeFuel fuel accFs p true now)
                fs path node.children (.ok (removeStepFs fs node parentId parent now))
            else .ok (removeStepFs fs node parentId parent now)

/-- `removeNode(fs, path, recursive)` at the standard fuel. -/
def removeNode (fs : FileSystem) (path : String) (recursive : Bool)
    (now : Nat) : Except String FileSystem :=
  removeNodeFuel (fs.nodes.length + 1) fs path recursive now

/-! ### The command interpreter -/

/-- `parseCommand(commandLine)`: trim, split on whitespace runs; the first
token is the command, the rest are arguments. -/
def parseCommand (commandLine : String) : String × List String :=
  let parts := (commandLine.trim.split (fun c => c.isWhitespace)).filter (fun s => s ≠ "")
  match parts with
  | [] => ("", [])
  | c :: rest => (c, rest)

/-- `size.toString().padStart(6, ' ')`. -/
def padStart6 (s : String) : String :=
  if 6 ≤ s.length then s
  else String.mk (List.replicate (6 - s.length) ' ') ++ s

/-- Stand-in for `date.toLocaleString('en-US', {...})` in the `ls` listing:
the source output is locale/environment dependent presentation text that no
claim inspects; the embedding renders the time stamp number. -/
def localeShortDate (t : Nat) : String :=
  toString t

/-- One line of the `ls` listing. -/
def lsLine (child : FileSystemNode) : String :=
  getPermissionString child ++ " " ++ padStart6 (toString child.metadata.size) ++ " " ++
    localeShortDate child.metadata.modifiedAt ++ " " ++ child.name ++
    (if child.isDirectory then "/" else "")

/-- The directory-listing tail of `cmdLs` (shared by the no-argument and
directory-path cases). -/
def lsDir (fs : FileSystem) (dirId : String) : String × FileSystem :=
  if hasPermission fs dirId .read = false then ("ls: Permission denied", fs)
  else
    let children := getDirectoryChildren fs dirId
    let out := String.intercalate "\n" (children.map lsLine)
    (if out = "" then "(empty directory)" else out, fs)

/-- `cmdLs(args, fs)`. -/
def cmdLs (args : List String) (fs : FileSystem) : String × FileSystem :=
  match args with
  | [] => lsDir fs fs.currentDirectory
  | path :: _ =>
    match getNodeByPath fs path with
    | none => ("ls: " ++ path ++ ": No such file or directory", fs)
    | some node =>
      if node.isDirectory = false then (node.name, fs)
      else lsDir fs node.id

/-- `cmdCd(args, fs)`. -/
def cmdCd (args : List String) (fs : FileSystem) : String × FileSystem :=
  match args with
  | [] =>
    match findRootNode fs with
    | some rootNode => ("", { fs with currentDirectory := rootNode.id })
    | none => ("cd: No root directory found", fs)
  | path :: _ =>
    if path = ".." then
      match mapFind fs.nodes fs.currentDirectory with
      | none => ("", fs)
      | some currentDir =>
        match currentDir.parentId with
        | none => ("", fs)
        | some targetId =>
          if hasPermission fs targetId .execute = false then ("cd: Permission denied", fs)
          else ("", { fs with currentDirectory := targetId })
    else
      match getNodeByPath fs path with
      | none => ("cd: " ++ path ++ ": No such file or directory", fs)
      | some node =>
        if node.isDirectory = false then ("cd: " ++ path ++ ": Not a directory", fs)
        else if hasPermission fs node.id .execute = false then ("cd: Permission denied", fs)
        else ("", { fs with currentDirectory := node.id })

/-- The `for (const dirName of args)` loop of `cmdMkdir`; the `uuidv4()`
results are `supply k`, `supply (k+1)`, ... -/
def mkdirGo (supply : Nat → String) (now : Nat) :
    List String → Nat → FileSystem → Except String FileSystem
  | [], _, fs => .ok fs
  | name :: rest, k, fs =>
    match createDirectory fs fs.currentDirectory name (supply k) now with
    | .error e => .error e
    | .ok fs1 => mkdirGo supply now rest (k + 1) fs1

/-- `cmdMkdir(args, fs)`: on any thrown error the catch returns the
snapshot the command started from. -/
def cmdMkdir (args : List String) (fs : FileSystem) (supply : Nat → String)
    (now : Nat) : String × FileSystem :=
  match args with
  | [] => ("mkdir: missing operand", fs)
  | _ :: _ =>
    match mkdirGo supply now args 0 fs with
    | .ok newFs => ("", newFs)
    | .error e => ("mkdir: " ++ e, fs)

/-- The `for (const fileName of args)` loop of `cmdTouch`. -/
def touchGo (supply : Nat → String) (now : Nat) :
    List String → Nat → FileSystem → Except String FileSystem
  | [], _, fs => .ok fs
  | name :: rest, k, fs =>
    match createFile fs fs.currentDirectory name "" "text/plain" (supply k) now with
    | .error e => .error e
    | .ok fs1 => touchGo supply now rest (k + 1) fs1

/-- `cmdTouch(args, fs)`. -/
def cmdTouch (args : List String) (fs : FileSystem) (supply : Nat → String)
    (now : Nat) : String × FileSystem :=
  match args with
  | [] => ("touch: missing operand", fs)
  | _ :: _ =>
    match touchGo supply now args 0 fs with
    | .ok newFs => ("", newFs)
    | .error e => ("touch: " ++ e, fs)

/-- `cmdCat(args, fs)`. -/
def cmdCat (args : List String) (fs : FileSystem) : String × FileSystem :=
  match args with
  | [] => ("cat: missing operand", fs)
  | path :: _ =>
    match getNodeByPath fs path with
    | none => ("cat: " ++ path ++ ": No such file or directory", fs)
    | some node =>
      if node.isDirectory then ("cat: " ++ path ++ ": Is a directory", fs)
      else if hasPermission fs node.id .read = false then ("cat: Permission denied", fs)
      else (node.content, fs)

/-- `cmdPwd(args, fs)`. -/
def cmdPwd (fs : FileSystem) : String × FileSystem :=
  (getNodePath fs fs.currentDirectory, fs)

/-- The per-path loop of `cmdRm`: each failure is caught and collected,
the walk continues with the snapshot of the last success. -/
def rmGo (recursive : Bool) (now : Nat) :
    List String → FileSystem → List String → FileSystem × List String
  | [], fs, errs => (fs, errs)
  | path :: rest, fs, errs =>
    match removeNode fs path recursive now with
    | .ok newFs => rmGo recursive now rest newFs errs
    | .error e => rmGo recursive now rest fs (errs ++ ["rm: " ++ path ++ ": " ++ e])

/-- Packaging of `cmdRm`'s result: `errors.length ? errors.join('\n') : ''`
next to the final snapshot. -/
def rmOut (r : FileSystem × List String) : String × FileSystem :=
  (if r.2 = [] then "" else String.intercalate "\n" r.2, r.1)

/-- `cmdRm(args, fs)`: a leading `-r`/`-rf` switches on recursion and is
dropped from the path list; an empty path list is a missing operand. -/
def cmdRm (args : List String) (fs : FileSystem) (now : Nat) : String × FileSystem :=
  match args with
  | [] => ("rm: missing operand", fs)
  | first :: rest =>
    if first = "-r" ∨ first = "-rf" then
      match rest with
      | [] => ("rm: missing operand", fs)
      | _ :: _ => rmOut (rmGo true now rest fs [])
    else rmOut (rmGo false now (first :: rest) fs [])

/-- `executeCommand(fs, commandLine)`; `supply`/`now` feed the `uuidv4()`
and `Date` calls of the handlers. -/
def executeCommand (fs : FileSystem) (commandLine : String)
    (supply : Nat → String) (now : Nat) : String × FileSystem :=
  let parsed := parseCommand commandLine
  let command := parsed.1
  let args := parsed.2
  if command = "ls" then cmdLs args fs
  else if command = "cd" then cmdCd args fs
  else if command = "mkdir" then cmdMkdir args fs supply now
  else if command = "touch" then cmdTouch args fs supply now
  else if command = "cat" then cmdCat args fs
  else if command = "pwd" then cmdPwd fs
  else if command = "rm" then cmdRm args fs now
  else ("Command not found: " ++ command, fs)

/-- Specification-side reading of a free run: each of the `k` blocks
starting at `s` exists and has no owner. -/
def FreeRun (fs : FileSystem) (s k : Nat) : Prop :=
  ∀ i < k, ∃ b, fs.blocks.get? (s + i) = some b ∧ b.fileId = none

/-! ### Well-formedness and reachability -/

/-- Structural well-formedness of a snapshot.  `initializeFileSystem`
establishes it and every engine mutation preserves it; the block
conservation fields are the property claimed by the spec. -/
structure WF (fs : FileSystem) : Prop where
  keysNodup : (mapKeys fs.nodes).Nodup
  keysMatch : ∀ p ∈ fs.nodes, p.2.id = p.1
  blocksLen : fs.blocks.length = fs.totalBlocks
  childLink : ∀ p ∈ fs.nodes, ∀ c ∈ p.2.children,
    ∃ m, mapFind fs.nodes c = some m ∧ m.parentId = some p.1
  childNodup : ∀ p ∈ fs.nodes, p.2.children.Nodup
  childNames : ∀ p ∈ fs.nodes, ∀ c₁ c₂ m₁ m₂, c₁ ∈ p.2.children → c₂ ∈ p.2.children →
    c₁ ≠ c₂ → mapFind fs.nodes c₁ = some m₁ → mapFind fs.nodes c₂ = some m₂ →
    m₁.name ≠ m₂.name
  noSelfParent : ∀ p ∈ fs.nodes, p.2.parentId ≠ some p.1
  blockOwner : ∀ i b, fs.blocks.get? i = some b → ∀ fid, b.fileId = some fid →
    ∃ n, mapFind fs.nodes fid = some n ∧ n.isDirectory = false ∧
      i ∈ n.blockAllocation.blocks
  fileBlocks : ∀ p ∈ fs.nodes, p.2.isDirectory = false →
    ∀ i ∈ p.2.blockAllocation.blocks,
      ∃ b, fs.blocks.get? i = some b ∧ b.fileId = some p.1
  childrenDir : ∀ p ∈ fs.nodes, p.2.children ≠ [] → p.2.isDirectory = true

/-- The fresh ids an `executeCommand` run draws from `uuidv4()`: each is
absent from the snapshot and all are pairwise distinct. -/
def FreshSupply (fs : FileSystem) (supply : Nat → String) : Prop :=
  (∀ k, mapFind fs.nodes (supply k) = none) ∧ Function.Injective supply

/-- The snapshots reachable from `initializeFileSystem` through the
engine operations and the command interpreter.  The freshness hypotheses
on the explicit id arguments state what `uuidv4()` guarantees. -/
inductive Reachable : FileSystem → Prop where
  | init : ∀ blockSize totalBlocks rootId adminId now,
      Reachable (initializeFileSystem blockSize totalBlocks rootId adminId now)
  | mkdirStep : ∀ fs parentId name newDirId now fs', Reachable fs →
      mapFind fs.nodes newDirId = none →
      createDirectory fs parentId name newDirId now = .ok fs' → Reachable fs'
  | createFileStep : ∀ fs parentId name content ty newFileId now fs', Reachable fs →
      mapFind fs.nodes newFileId = none →
      createFile fs parentId name content ty newFileId now = .ok fs' → Reachable fs'
  | moveStep : ∀ fs nodeId newParentId now fs', Reachable fs →
      moveNode fs nodeId newParentId now = .ok fs' → Reachable fs'
  | removeStep : ∀ fs path recursive now fs', Reachable fs →
      removeNode fs path recursive now = .ok fs' → Reachable fs'
  | execStep : ∀ fs commandLine supply now, Reachable fs →
      FreshSupply fs supply →
      Reachable (executeCommand fs commandLine supply now).2

/-- The spec's "node reachable from the root (following children/parentId
links)": the record the source's root lookup returns, or a record looked
up from a reachable record's `children`. -/
inductive RootReach (fs : FileSystem) : FileSystemNode → Prop where
  | root : ∀ n, findRootNode fs = some n → RootReach fs n
  | child : ∀ p n cid, RootReach fs p → cid ∈ p.children →
      mapFind fs.nodes cid = some n → RootReach fs n

/-- The parent chain of a reachable record as the proofs walk it: `ids`
lists the node ids from `n` (inclusive) up to the root (exclusive), each
step matching the links `getNodePath` and `getNodeByPath` traverse. -/
inductive ChainUpTo (fs : FileSystem) (root : FileSystemNode) :
    FileSystemNode → List String → Prop where
  | base : ChainUpTo fs root root []
  | step : ∀ n p ids, n.parentId = some p.id → mapFind fs.nodes p.id = some p →
      mapFind fs.nodes n.id = some n → p.isDirectory = true → n.id ∈ p.children →
      ChainUpTo fs root p ids → ChainUpTo fs root n (n.id :: ids)

/-- Data-level image of the `'/'`-separated tail `parts.join('/')` appends
after its first part. -/
def glue : List String → List Char
  | [] => []
  | q :: rest => '/' :: (q.data ++ glue rest)

/-! ### Concrete snapshots used to witness the claims -/

/-- A file node with an empty permission table, used to exercise
`hasPermission` and the `ls` file branch. -/
def plainFileNode (fid pid name : String) : FileSystemNode :=
  { id := fid
    name := name
    isDirectory := false
    parentId := some pid
    owner := "admin"
    permissions := []
    children := []
    content := ""
    blockAllocation := { strategy := .contiguous, startBlock := none, blocks := [] }
    metadata := { createdAt := 0, modifiedAt := 0, size := 0, type := "text/plain" } }

/-- A root directory whose children are the given ids, owned by `admin`. -/
def plainRootNode (rid : String) (childIds : List String) : FileSystemNode :=
  { id := rid
    name := "/"
    isDirectory := true
    parentId := none
    owner := "admin"
    permissions := [("admin", { read := true, write := true, execute := true })]
    children := childIds
    content := ""
    blockAllocation := { strategy := .contiguous, startBlock := none, blocks := [] }
    metadata := { createdAt := 0, modifiedAt := 0, size := 0, type := "directory" } }

/-- A node carrying one explicit permission entry for user `u`. -/
def grantedNode : FileSystemNode :=
  { plainFileNode "n" "r" "g.txt" with
    permissions := [("u", { read := true, write := false, execute := false })] }

/-- Snapshot whose current user `u` is not an admin: `u` has a read grant
on node `n` and no grant at all on node `m`. -/
def permFs : FileSystem :=
  { nodes := [("r", plainRootNode "r" ["n", "m"]),
      ("n", grantedNode),
      ("m", plainFileNode "m" "r" "m.txt")]
    users := [("admin", { id := "admin", username := "admin", isAdmin := true }),
      ("u", { id := "u", username := "u", isAdmin := false })]
    currentUser := "u"
    currentDirectory := "r"
    blocks := []
    blockSize := 10
    totalBlocks := 0
    allocationStrategy := .contiguous }

/-- Snapshot for the `ls` claim: the current user `u` has no grants at all
and the listed target `f.txt` is a file. -/
def lsFs : FileSystem :=
  { nodes := [("r", plainRootNode "r" ["f1"]),
      ("f1", plainFileNode "f1" "r" "f.txt")]
    users := [("admin", { id := "admin", username := "admin", isAdmin := true }),
      ("u", { id := "u", username := "u", isAdmin := false })]
    currentUser := "u"
    currentDirectory := "r"
    blocks := []
    blockSize := 10
    totalBlocks := 0
    allocationStrategy := .contiguous }

/-- Scenario A of the spec: `blockSize = 10`, `totalBlocks = 5`. -/
def scenarioA0 : FileSystem := initializeFileSystem 10 5 "rootA" "adminA" 0

/-- Scenario A after `createFile(root, "a.txt", "12345")`. -/
def scenarioA1 : FileSystem :=
  (createFile scenarioA0 "rootA" "a.txt" "12345" "text/plain" "fileA" 1).toOption.getD default

/-- Scenario A after the further `createFile(root, "b.txt", "abcdefghij1")`. -/
def scenarioA2 : FileSystem :=
  (createFile scenarioA1 "rootA" "b.txt" "abcdefghij1" "text/plain" "fileB" 2).toOption.getD default

/-- A snapshot whose single block is already owned by another file:
no free block at all. -/
def fullDiskFs : FileSystem :=
  { nodes := [("r", plainRootNode "r" ["zz"]),
      ("zz", { plainFileNode "zz" "r" "old.bin" with
        blockAllocation := { strategy := .contiguous, startBlock := some 0, blocks := [0] } })]
    users := [("admin", { id := "admin", username := "admin", isAdmin := true })]
    currentUser := "admin"
    currentDirectory := "r"
    blocks := [{ id := 0, fileId := some "zz", nextBlock := none, content := "x" }]
    blockSize := 4
    totalBlocks := 1
    allocationStrategy := .contiguous }

/-- `fullDiskFs` after `touch`-style creation of an empty file. -/
def fullDiskCreated : FileSystem :=
  (createFile fullDiskFs "r" "e.txt" "" "text/plain" "fe" 7).toOption.getD default

/-- Scenario B of the spec: a fresh filesystem (`blockSize = 10`,
`totalBlocks = 5`). -/
def scenarioB0 : FileSystem := initializeFileSystem 10 5 "rootB" "adminB" 0

/-- Scenario B after `mkdir x`. -/
def scenarioB1 : FileSystem :=
  (createDirectory scenarioB0 "rootB" "x" "dirX" 1).toOption.getD default

/-- Scenario B after creating the file `f` (with 5 bytes of content, so
it owns block 0) inside the directory `x`. -/
def scenarioB2 : FileSystem :=
  (createFile scenarioB1 "dirX" "f" "12345" "text/plain" "fileF" 2).toOption.getD default

/-- Scenario E of the spec: a fresh filesystem. -/
def scenarioE0 : FileSystem := initializeFileSystem 10 5 "rootE" "adminE" 0

/-- Scenario E after `mkdir dirA`. -/
def scenarioE1 : FileSystem :=
  (createDirectory scenarioE0 "rootE" "dirA" "dA" 1).toOption.getD default

/-- Scenario E after creating `childOfDirA` inside `dirA`. -/
def scenarioE2 : FileSystem :=
  (createDirectory scenarioE1 "dA" "childOfDirA" "dC" 2).toOption.getD default

/-- The record of `dirA` in `scenarioE2`. -/
def dirANode : FileSystemNode := (mapFind scenarioE2.nodes "dA").getD default

/-- The record of `childOfDirA` in `scenarioE2`. -/
def childOfDirANode : FileSystemNode := (mapFind scenarioE2.nodes "dC").getD default

/-- Base snapshot of the path round-trip scenario. -/
def c8Base : FileSystem := initializeFileSystem 10 5 "root8" "admin8" 0

/-- `mkdir` of a directory literally named `a/b` under the root — the
source validates no names, so this succeeds. -/
def c8Fs : FileSystem :=
  match createDirectory c8Base "root8" "a/b" "n8" 1 with
  | .ok fs => fs
  | .error _ => c8Base

/-- The record of the directory named `a/b`. -/
def c8Node : FileSystemNode := (mapFind c8Fs.nodes "n8").getD default

/-- The root record of the round-trip scenario. -/
def c8Root : FileSystemNode := (mapFind c8Fs.nodes "root8").getD default

/-- A slash-free snapshot instantiating the amended round trip. -/
def c8W : FileSystem := initializeFileSystem 9 3 "r8" "a8" 0

/-- Its root record. -/
def c8WRoot : FileSystemNode := (mapFind c8W.nodes "r8").getD default

/-- A snapshot with a directory `docs` under the root, used to exercise
the duplicate-sibling-name rejection. -/
def c4Fs : FileSystem :=
  match createDirectory (initializeFileSystem 6 4 "root4" "admin4" 0)
      "root4" "docs" "d4" 1 with
  | .ok fs => fs
  | .error _ => initializeFileSystem 6 4 "root4" "admin4" 0

/-- Its root record. -/
def c4Root : FileSystemNode := (mapFind c4Fs.nodes "root4").getD default

/-- The node with id `target` lies on the `parentId` ancestor chain of
`cur`, walked exactly as `moveNode`'s cycle check walks it: a node is
compared with the target only while its own `parentId` is non-null, and
the walk moves to the looked-up parent record.  The index counts the
steps taken before the hit. -/
inductive HitsChain (fs : FileSystem) (target : String) : FileSystemNode → Nat → Prop where
  | here : ∀ cur pid, cur.parentId = some pid → cur.id = target →
      HitsChain fs target cur 0
  | up : ∀ cur pid p k, cur.parentId = some pid → cur.id ≠ target →
      mapFind fs.nodes pid = some p → HitsChain fs target p k →
      HitsChain fs target cur (k + 1)

/-! ## Lemmas about the association-list primitives -/

section MapLemmas

variable {α : Type}

@[simp] theorem mapFind_nil (k : String) : mapFind ([] : List (String × α)) k = none := rfl

@[simp] theorem mapFind_cons (k' : String) (v' : α) (rest : List (String × α)) (k : String) :
    mapFind ((k', v') :: rest) k = if k' = k then some v' else mapFind rest k := rfl

theorem mapFind_eq_some_mem {m : List (String × α)} {k : String} {v : α}
    (h : mapFind m k = some v) : (k, v) ∈ m := by
  induction m with
  | nil => simp at h
  | cons p rest ih =>
    obtain ⟨k', v'⟩ := p
    rw [mapFind_cons] at h
    by_cases hk : k' = k
    · subst hk
      rw [if_pos rfl] at h
      cases h
      exact List.mem_cons_self _ _
    · rw [if_neg hk] at h
      exact List.mem_cons_of_mem _ (ih h)

theorem mapFind_eq_none_iff {m : List (String × α)} {k : String} :
    mapFind m k = none ↔ ∀ v, (k, v) ∉ m := by
  induction m with
  | nil => simp
  | cons p rest ih =>
    obtain ⟨k', v'⟩ := p
    rw [mapFind_cons]
    by_cases hk : k' = k
    · subst hk
      rw [if_pos rfl]
      constructor
      · intro h
        exact absurd h (by simp)
      · intro h
        exact absurd (List.mem_cons_self _ _) (h v')
    · rw [if_neg hk, ih]
      constructor
      · intro h v hv
        rcases List.mem_cons.mp hv with hv | hv
        · exact hk (congrArg Prod.fst hv.symm)
        · exact h v hv
      · intro h v hv
        exact h v (List.mem_cons_of_mem _ hv)

theorem mem_mapFind {m : List (String × α)} {k : String} {v : α}
    (hn : (mapKeys m).Nodup) (hm : (k, v) ∈ m) : mapFind m k = some v := by
  induction m with
  | nil => simp at hm
  | cons p rest ih =>
    obtain ⟨k', v'⟩ := p
    simp only [mapKeys, List.map_cons, List.nodup_cons] at hn
    rw [mapFind_cons]
    rcases List.mem_cons.mp hm with h | h
    · rw [Prod.mk.injEq] at h
      obtain ⟨h1, h2⟩ := h
      rw [if_pos h1.symm, h2]
    · have hk : k' ≠ k := by
        intro he
        subst he
        exact hn.1 (List.mem_map.mpr ⟨(k', v), h, rfl⟩)
      rw [if_neg hk]
      exact ih hn.2 h

theorem mapFind_functional {m : List (String × α)} {k : String} {v v' : α}
    (hn : (mapKeys m).Nodup) (h : (k, v) ∈ m) (h' : (k, v') ∈ m) : v = v' := by
  have a := mem_mapFind hn h
  have b := mem_mapFind hn h'
  rw [a] at b
  cases b
  rfl

theorem mapSet_any_iff {m : List (String × α)} {k : String} :
    (m.any (fun p => p.1 = k) = true) ↔ ∃ v, (k, v) ∈ m := by
  simp only [List.any_eq_true, decide_eq_true_eq]
  constructor
  · rintro ⟨⟨k', v'⟩, hm, hk⟩
    simp only at hk
    subst hk
    exact ⟨v', hm⟩
  · rintro ⟨v, hv⟩
    exact ⟨(k, v), hv, rfl⟩

theorem mapFind_mapSet_self (m : List (String × α)) (k : String) (v : α) :
    mapFind (mapSet m k v) k = some v := by
  unfold mapSet
  by_cases h : m.any (fun p => p.1 = k) = true
  · rw [if_pos h]
    obtain ⟨v0, hv0⟩ := mapSet_any_iff.mp h
    clear h
    induction m with
    | nil => simp at hv0
    | cons p rest ih =>
      obtain ⟨k', v'⟩ := p
      simp only [List.map_cons]
      by_cases hk : k' = k
      · subst hk
        rw [if_pos rfl, mapFind_cons, if_pos rfl]
      · rw [if_neg (by simpa using hk)]
        rcases List.mem_cons.mp hv0 with h | h
        · exact absurd (congrArg Prod.fst h.symm) hk
        · rw [mapFind_cons, if_neg hk]
          exact ih h
  · rw [if_neg h]
    have hnone : mapFind m k = none := by
      rw [mapFind_eq_none_iff]
      intro v0 hv0
      exact h (mapSet_any_iff.mpr ⟨v0, hv0⟩)
    clear h
    induction m with
    | nil => simp
    | cons p rest ih =>
      obtain ⟨k', v'⟩ := p
      rw [mapFind_cons] at hnone
      by_cases hk : k' = k
      · rw [if_pos hk] at hnone
        cases hnone
      · rw [if_neg hk] at hnone
        rw [List.cons_append, mapFind_cons, if_neg hk]
        exact ih hnone

theorem mapFind_mapSet_ne (m : List (String × α)) (k k' : String) (v : α)
    (h : k ≠ k') : mapFind (mapSet m k v) k' = mapFind m k' := by
  unfold mapSet
  by_cases hany : m.any (fun p => p.1 = k) = true
  · rw [if_pos hany]
    clear hany
    induction m with
    | nil => simp
    | cons p rest ih =>
      obtain ⟨k'', v''⟩ := p
      simp only [List.map_cons]
      by_cases hk : k'' = k
      · subst hk
        rw [if_pos rfl, mapFind_cons, mapFind_cons, if_neg h, if_neg h]
        exact ih
      · rw [if_neg (by simpa using hk), mapFind_cons, mapFind_cons]
        by_cases he : k'' = k'
        · rw [if_pos he, if_pos he]
        · rw [if_neg he, if_neg he]
          exact ih
  · rw [if_neg hany]
    clear hany
    induction m with
    | nil => simp [mapFind_cons, if_neg h]
    | cons p rest ih =>
      obtain ⟨k'', v''⟩ := p
      rw [List.cons_append, mapFind_cons, mapFind_cons]
      by_cases he : k'' = k'
      · rw [if_pos he, if_pos he]
      · rw [if_neg he, if_neg he]
        exact ih

theorem mapKeys_mapSet_of_mem {m : List (String × α)} {k : String} (v : α)
    (h : ∃ v0, (k, v0) ∈ m) : mapKeys (mapSet m k v) = mapKeys m := by
  unfold mapSet
  rw [if_pos (mapSet_any_iff.mpr h)]
  unfold mapKeys
  rw [List.map_map]
  apply List.map_congr_left
  intro p _
  by_cases hk : p.1 = k
  · simp only [Function.comp_apply, if_pos hk]
    exact hk.symm
  · simp only [Function.comp_apply, if_neg hk]

theorem mapKeys_mapSet_of_not_mem {m : List (String × α)} {k : String} (v : α)
    (h : mapFind m k = none) : mapKeys (mapSet m k v) = mapKeys m ++ [k] := by
  unfold mapSet
  rw [if_neg]
  · simp [mapKeys]
  · intro hany
    obtain ⟨v0, hv0⟩ := mapSet_any_iff.mp hany
    exact (mapFind_eq_none_iff.mp h) v0 hv0

theorem nodup_mapKeys_mapSet {m : List (String × α)} {k : String} (v : α)
    (hn : (mapKeys m).Nodup) : (mapKeys (mapSet m k v)).Nodup := by
  by_cases h : mapFind m k = none
  · rw [mapKeys_mapSet_of_not_mem v h]
    rw [List.nodup_append]
    refine ⟨hn, List.nodup_singleton k, ?_⟩
    intro a ha hb
    simp only [List.mem_singleton] at hb
    subst hb
    obtain ⟨⟨k', v'⟩, hm, he⟩ := List.mem_map.mp ha
    simp only at he
    subst he
    exact (mapFind_eq_none_iff.mp h) v' hm
  · obtain ⟨v0, hv0⟩ := Option.ne_none_iff_exists'.mp h
    rw [mapKeys_mapSet_of_mem v ⟨v0, mapFind_eq_some_mem hv0⟩]
    exact hn

theorem mem_mapSet_iff {m : List (String × α)} {k : String} {v : α}
    {p : String × α} (hn : (mapKeys m).Nodup) :
    p ∈ mapSet m k v ↔ p = (k, v) ∨ (p ∈ m ∧ p.1 ≠ k) := by
  unfold mapSet
  by_cases hany : m.any (fun q => q.1 = k) = true
  · rw [if_pos hany]
    obtain ⟨v0, hv0⟩ := mapSet_any_iff.mp hany
    constructor
    · intro hp
      obtain ⟨q, hq, he⟩ := List.mem_map.mp hp
      by_cases hk : q.1 = k
      · rw [if_pos hk] at he
        exact Or.inl he.symm
      · rw [if_neg hk] at he
        subst he
        exact Or.inr ⟨hq, hk⟩
    · rintro (hp | ⟨hp, hk⟩)
      · subst hp
        refine List.mem_map.mpr ⟨(k, v0), hv0, ?_⟩
        rw [if_pos rfl]
      · refine List.mem_map.mpr ⟨p, hp, ?_⟩
        rw [if_neg hk]
  · rw [if_neg hany]
    have hnone : mapFind m k = none := by
      rw [mapFind_eq_none_iff]
      intro v0 hv0
      exact hany (mapSet_any_iff.mpr ⟨v0, hv0⟩)
    rw [List.mem_append]
    constructor
    · rintro (hp | hp)
      · refine Or.inr ⟨hp, ?_⟩
        intro hk
        obtain ⟨k', v'⟩ := p
        simp only at hk
        subst hk
        exact (mapFind_eq_none_iff.mp hnone) v' hp
      · simp only [List.mem_singleton] at hp
        exact Or.inl hp
    · rintro (hp | ⟨hp, _⟩)
      · exact Or.inr (by simp [hp])
      · exact Or.inl hp

theorem mapFind_mapErase_self (m : List (String × α)) (k : String) :
    mapFind (mapErase m k) k = none := by
  rw [mapFind_eq_none_iff]
  intro v hv
  unfold mapErase at hv
  have := List.of_mem_filter hv
  simp at this

theorem mapFind_mapErase_ne (m : List (String × α)) (k k' : String)
    (h : k ≠ k') : mapFind (mapErase m k) k' = mapFind m k' := by
  induction m with
  | nil => simp [mapErase]
  | cons p rest ih =>
    obtain ⟨k'', v''⟩ := p
    unfold mapErase
    by_cases hk : k'' = k
    · subst hk
      rw [List.filter_cons_of_neg (by simp)]
      unfold mapErase at ih
      rw [ih, mapFind_cons, if_neg h]
    · rw [List.filter_cons_of_pos (by simpa using hk)]
      rw [mapFind_cons, mapFind_cons]
      by_cases he : k'' = k'
      · rw [if_pos he, if_pos he]
      · rw [if_neg he, if_neg he]
        exact ih

theorem mem_mapErase_iff {m : List (String × α)} {k : String} {p : String × α} :
    p ∈ mapErase m k ↔ p ∈ m ∧ p.1 ≠ k := by
  unfold mapErase
  constructor
  · intro hp
    exact ⟨List.mem_of_mem_filter hp, by simpa using List.of_mem_filter hp⟩
  · intro ⟨hp, hk⟩
    exact List.mem_filter.mpr ⟨hp, by simpa using hk⟩

theorem mapKeys_mapErase (m : List (String × α)) (k : String) :
    mapKeys (mapErase m k) = (mapKeys m).filter (fun x => x ≠ k) := by
  induction m with
  | nil => simp [mapErase, mapKeys]
  | cons p rest ih =>
    obtain ⟨k'', v''⟩ := p
    unfold mapErase mapKeys
    by_cases hk : k'' = k
    · subst hk
      rw [List.filter_cons_of_neg (by simp)]
      simp only [List.map_cons]
      rw [List.filter_cons_of_neg (by simp)]
      exact ih
    · rw [List.filter_cons_of_pos (by simpa using hk)]
      simp only [List.map_cons]
      rw [List.filter_cons_of_pos (by simpa using hk)]
      unfold mapErase mapKeys at ih
      rw [ih]

theorem nodup_mapKeys_mapErase {m : List (String × α)} {k : String}
    (hn : (mapKeys m).Nodup) : (mapKeys (mapErase m k)).Nodup := by
  rw [mapKeys_mapErase]
  exact List.Nodup.filter _ hn

end MapLemmas

/-! ## C6: the permission check -/

/-- C6.  `hasPermission(snapshot, nodeId, kind)` behaves as specified:
with the node and the current user both present it returns true for an
admin, and for a non-admin it returns true exactly when the node's own
permission table holds an entry keyed by the current user's id whose
`kind` flag is true (no parent directory is consulted — the result is
fully determined by that one table); when the node id or the current user
id is absent from the snapshot it returns false. -/
theorem C6_hasPermission_spec (fs : FileSystem) (nodeId : String) (k : PermKind) :
    (∀ node user, mapFind fs.nodes nodeId = some node →
        mapFind fs.users fs.currentUser = some user → user.isAdmin = true →
        hasPermission fs nodeId k = true)
    ∧ (∀ node user, mapFind fs.nodes nodeId = some node →
        mapFind fs.users fs.currentUser = some user → user.isAdmin = false →
        (hasPermission fs nodeId k = true ↔
          ∃ p, mapFind node.permissions user.id = some p ∧ p.get k = true))
    ∧ ((mapFind fs.nodes nodeId = none ∨ mapFind fs.users fs.currentUser = none) →
        hasPermission fs nodeId k = false) := by
  refine ⟨?_, ?_, ?_⟩
  · intro node user hnode huser hadmin
    unfold hasPermission
    rw [hnode, huser]
    simp [hadmin]
  · intro node user hnode huser hadmin
    unfold hasPermission
    rw [hnode, huser]
    simp only [hadmin, Bool.false_eq_true, if_false]
    constructor
    · intro h
      match he : mapFind node.permissions user.id with
      | some p =>
        rw [he] at h
        exact ⟨p, rfl, h⟩
      | none =>
        rw [he] at h
        cases h
    · rintro ⟨p, hp, hk⟩
      rw [hp]
      exact hk
  · intro h
    unfold hasPermission
    rcases h with h | h
    · rw [h]
    · rw [h]
      rcases mapFind fs.nodes nodeId with _ | n
      · rfl
      · rfl

/-- Witness for C6 on concrete snapshots: the admin of a fresh filesystem
passes the write check on the root; in `permFs` the non-admin current user
`u` passes the read check on `n` through the explicit entry, and the check
on a node id absent from the snapshot is false. -/
theorem C6_hasPermission_spec_witness :
    hasPermission (initializeFileSystem 10 5 "root" "admin" 0) "root" .write = true
    ∧ (hasPermission permFs "n" .read = true ↔
        ∃ p, mapFind grantedNode.permissions "u" = some p ∧ p.get .read = true)
    ∧ hasPermission permFs "missing" .read = false := by
  refine ⟨?_, ?_, ?_⟩
  · exact (C6_hasPermission_spec (initializeFileSystem 10 5 "root" "admin" 0)
      "root" .write).1 _ _ rfl rfl rfl
  · exact (C6_hasPermission_spec permFs "n" .read).2.1 grantedNode
      { id := "u", username := "u", isAdmin := false } rfl rfl rfl
  · exact (C6_hasPermission_spec permFs "missing" .read).2.2 (Or.inl rfl)

/-! ## C10: `ls` on a file path -/

/-- C10.  When the path argument of `ls` resolves to a file the handler
returns just the file's name with the snapshot unchanged; the read
permission check (output `ls: Permission denied`) is reached only when
the listed target is a directory.  In particular the file-name echo does
not depend on any permission of the current user. -/
theorem C10_cmdLs_file_no_permission_check (fs : FileSystem) (path : String) :
    (∀ n, getNodeByPath fs path = some n → n.isDirectory = false →
        cmdLs [path] fs = (n.name, fs))
    ∧ (∀ n, getNodeByPath fs path = some n → n.isDirectory = true →
        hasPermission fs n.id .read = false →
        cmdLs [path] fs = ("ls: Permission denied", fs)) := by
  constructor
  · intro n hn hf
    show (match getNodeByPath fs path with
      | none => ("ls: " ++ path ++ ": No such file or directory", fs)
      | some node => if node.isDirectory = false then (node.name, fs) else lsDir fs node.id) =
      (n.name, fs)
    rw [hn]
    show (if n.isDirectory = false then (n.name, fs) else lsDir fs n.id) = (n.name, fs)
    rw [hf, if_pos rfl]
  · intro n hn hd hp
    show (match getNodeByPath fs path with
      | none => ("ls: " ++ path ++ ": No such file or directory", fs)
      | some node => if node.isDirectory = false then (node.name, fs) else lsDir fs node.id) =
      ("ls: Permission denied", fs)
    rw [hn]
    show (if n.isDirectory = false then (n.name, fs) else lsDir fs n.id) =
      ("ls: Permission denied", fs)
    rw [hd]
    simp only [Bool.true_eq_false, if_false]
    unfold lsDir
    rw [hp]
    rfl

/-- Witness for C10: in `lsFs` the current user `u` has no grant at all on
the file `f.txt`, yet `ls /f.txt` echoes the file's name and leaves the
snapshot unchanged. -/
theorem C10_cmdLs_file_no_permission_check_witness :
    cmdLs ["/f.txt"] lsFs = ("f.txt", lsFs)
    ∧ hasPermission lsFs "f1" .read = false := by
  constructor
  · exact (C10_cmdLs_file_no_permission_check lsFs "/f.txt").1
      (plainFileNode "f1" "r" "f.txt") (by decide) rfl
  · decide

/-! ## Allocator lemmas -/

theorem runFree_iff {blocks : List Block} {s k : Nat} :
    runFree blocks s k = true ↔
      ∀ i < k, ∃ b, blocks.get? (s + i) = some b ∧ b.fileId = none := by
  unfold runFree
  rw [List.all_eq_true]
  constructor
  · intro h i hi
    have := h i (List.mem_range.mpr hi)
    match hb : blocks.get? (s + i) with
    | some b =>
      rw [hb] at this
      exact ⟨b, rfl, Option.isNone_iff_eq_none.mp this⟩
    | none =>
      rw [hb] at this
      cases this
  · intro h i hi
    obtain ⟨b, hb, hfree⟩ := h i (List.mem_range.mp hi)
    rw [hb]
    simp [hfree]

theorem scanStart_eq_some_iff {blocks : List Block} {needed : Nat} :
    ∀ {count s0 s : Nat},
      (scanStart blocks needed count s0 = some s ↔
        s0 ≤ s ∧ s < s0 + count ∧ runFree blocks s needed = true ∧
          ∀ t, s0 ≤ t → t < s → runFree blocks t needed = false) := by
  intro count
  induction count with
  | zero =>
    intro s0 s
    simp only [scanStart]
    constructor
    · intro h
      cases h
    · intro ⟨h1, h2, _⟩
      omega
  | succ c ih =>
    intro s0 s
    simp only [scanStart]
    by_cases hfree : runFree blocks s0 needed = true
    · rw [if_pos hfree]
      constructor
      · intro h
        cases h
        exact ⟨Nat.le_refl _, by omega, hfree, fun t h1 h2 => absurd h1 (by omega)⟩
      · intro ⟨h1, _, _, hmin⟩
        by_cases he : s0 = s
        · rw [he]
        · have : runFree blocks s0 needed = false := hmin s0 (Nat.le_refl _) (by omega)
          rw [hfree] at this
          cases this
    · rw [if_neg hfree]
      rw [ih]
      constructor
      · intro ⟨h1, h2, h3, hmin⟩
        refine ⟨by omega, by omega, h3, ?_⟩
        intro t ht1 ht2
        by_cases he : t = s0
        · subst he
          exact Bool.eq_false_iff.mpr hfree
        · exact hmin t (by omega) ht2
      · intro ⟨h1, h2, h3, hmin⟩
        have hs : s0 ≠ s := by
          intro he
          subst he
          exact hfree h3
        refine ⟨by omega, by omega, h3, ?_⟩
        intro t ht1 ht2
        exact hmin t (by omega) ht2

theorem scanStart_eq_none_iff {blocks : List Block} {needed : Nat} :
    ∀ {count s0 : Nat},
      (scanStart blocks needed count s0 = none ↔
        ∀ t, s0 ≤ t → t < s0 + count → runFree blocks t needed = false) := by
  intro count
  induction count with
  | zero =>
    intro s0
    simp only [scanStart]
    constructor
    · intro _ t h1 h2
      exact absurd h2 (by omega)
    · intro _
      trivial
  | succ c ih =>
    intro s0
    simp only [scanStart]
    by_cases hfree : runFree blocks s0 needed = true
    · rw [if_pos hfree]
      constructor
      · intro h
        cases h
      · intro h
        have := h s0 (Nat.le_refl _) (by omega)
        rw [hfree] at this
        cases this
    · rw [if_neg hfree]
      rw [ih]
      constructor
      · intro h t h1 h2
        by_cases he : t = s0
        · subst he
          exact Bool.eq_false_iff.mpr hfree
        · exact h t (by omega) (by omega)
      · intro h t h1 h2
        exact h t (by omega) (by omega)

/-! ## C2: the contiguous allocator is first fit -/

/-- C2.  `allocateBlocksContiguous` computes
`neededBlocks = ceil(contentSize / blockSize)` and returns the run
`[s, s + neededBlocks)` for the least start `s` whose blocks are all
free, scanning `0 .. totalBlocks - neededBlocks` upward; it returns none
exactly when no in-range all-free run exists.  The concrete Scenario A
(`blockSize = 10`, `totalBlocks = 5`) allocates `[0]` for the 5-byte
`a.txt` and then `[1, 2]` for the 11-byte `b.txt`. -/
theorem C2_allocateBlocksContiguous_first_fit :
    (∀ (fs : FileSystem) (n : Nat), 0 < fs.blockSize →
      (∀ l, allocateBlocksContiguous fs n = some l ↔
        ∃ s, s + (n + fs.blockSize - 1) / fs.blockSize ≤ fs.totalBlocks ∧
          FreeRun fs s ((n + fs.blockSize - 1) / fs.blockSize) ∧
          (∀ t < s, ¬ FreeRun fs t ((n + fs.blockSize - 1) / fs.blockSize)) ∧
          l = (List.range ((n + fs.blockSize - 1) / fs.blockSize)).map (fun i => s + i))
      ∧ (allocateBlocksContiguous fs n = none ↔
          ∀ s, s + (n + fs.blockSize - 1) / fs.blockSize ≤ fs.totalBlocks →
            ¬ FreeRun fs s ((n + fs.blockSize - 1) / fs.blockSize)))
    ∧ createFile scenarioA0 "rootA" "a.txt" "12345" "text/plain" "fileA" 1 = .ok scenarioA1
    ∧ (mapFind scenarioA1.nodes "fileA").map (fun f => f.blockAllocation.blocks) = some [0]
    ∧ createFile scenarioA1 "rootA" "b.txt" "abcdefghij1" "text/plain" "fileB" 2 = .ok scenarioA2
    ∧ (mapFind scenarioA2.nodes "fileB").map (fun f => f.blockAllocation.blocks) = some [1, 2] := by
  refine ⟨?_, rfl, rfl, rfl, rfl⟩
  intro fs n hbs
  have hbs0 : fs.blockSize ≠ 0 := by omega
  set needed := (n + fs.blockSize - 1) / fs.blockSize with hneed
  constructor
  · intro l
    unfold allocateBlocksContiguous
    rw [if_neg hbs0]
    by_cases hle : needed ≤ fs.totalBlocks
    · rw [← hneed, if_pos hle]
      constructor
      · intro h
        obtain ⟨s, hs, he⟩ := Option.map_eq_some'.mp h
        rw [scanStart_eq_some_iff] at hs
        obtain ⟨_, h2, h3, hmin⟩ := hs
        refine ⟨s, by omega, runFree_iff.mp h3, ?_, he.symm⟩
        intro t ht hf
        have := hmin t (by omega) ht
        rw [runFree_iff.mpr hf] at this
        cases this
      · rintro ⟨s, h1, h2, h3, h4⟩
        have : scanStart fs.blocks needed (fs.totalBlocks - needed + 1) 0 = some s := by
          rw [scanStart_eq_some_iff]
          refine ⟨Nat.zero_le _, by omega, runFree_iff.mpr h2, ?_⟩
          intro t _ ht
          by_cases hft : runFree fs.blocks t needed = true
          · exact absurd (runFree_iff.mp hft) (h3 t ht)
          · exact Bool.eq_false_iff.mpr hft
        rw [this, h4]
        rfl
    · rw [← hneed, if_neg hle]
      constructor
      · intro h
        cases h
      · rintro ⟨s, h1, _⟩
        omega
  · unfold allocateBlocksContiguous
    rw [if_neg hbs0]
    by_cases hle : needed ≤ fs.totalBlocks
    · rw [← hneed, if_pos hle]
      rw [Option.map_eq_none']
      rw [scanStart_eq_none_iff]
      constructor
      · intro h s hs hfr
        have := h s (Nat.zero_le _) (by omega)
        rw [runFree_iff.mpr hfr] at this
        cases this
      · intro h t _ ht
        by_cases hft : runFree fs.blocks t needed = true
        · exact absurd (runFree_iff.mp hft) (h t (by omega))
        · exact Bool.eq_false_iff.mpr hft
    · rw [← hneed, if_neg hle]
      constructor
      · intro _ s hs
        intro _
        omega
      · intro _
        rfl

/-- Witness for C2 at a concrete snapshot: in Scenario A after `a.txt`
the 11-byte request resolves to the first-fit run `[1, 2]` because block
0 is occupied and blocks 1..2 are the least free run of length 2. -/
theorem C2_allocateBlocksContiguous_first_fit_witness :
    allocateBlocksContiguous scenarioA1 11 = some [1, 2] := by
  have h := ((C2_allocateBlocksContiguous_first_fit.1 scenarioA1 11 (by decide)).1 [1, 2]).mpr
  refine h ⟨1, by decide, fun i hi => (runFree_iff.mp (by decide)) i hi, ?_, by decide⟩
  intro t ht hfr
  interval_cases t
  exact absurd (runFree_iff.mpr hfr) (by decide)

/-! ## C9: zero-length content allocates zero blocks -/

/-- C9.  With a positive block size, `allocateBlocksContiguous` for a
zero content length returns the empty run whatever the occupancy of the
blocks; consequently `createFile` (hence `touch`) with empty content can
never fail with the `Not enough disk space` condition under the
`contiguous` strategy (the only one the spec defines), and on success the
created file's `blockAllocation.blocks` is the empty sequence. -/
theorem C9_empty_content_zero_blocks (fs : FileSystem)
    (parentId name ty newFileId : String) (now : Nat) (hbs : 0 < fs.blockSize) :
    allocateBlocksContiguous fs 0 = some []
    ∧ (fs.allocationStrategy = .contiguous →
        createFile fs parentId name "" ty newFileId now ≠ .error "Not enough disk space")
    ∧ (∀ fs', mapFind fs.nodes newFileId = none →
        createFile fs parentId name "" ty newFileId now = .ok fs' →
        (mapFind fs'.nodes newFileId).map (fun f => f.blockAllocation.blocks) = some []) := by
  have hbs0 : fs.blockSize ≠ 0 := by omega
  have halloc : allocateBlocksContiguous fs 0 = some [] := by
    unfold allocateBlocksContiguous
    rw [if_neg hbs0]
    have hneed : (0 + fs.blockSize - 1) / fs.blockSize = 0 :=
      Nat.div_eq_of_lt (by omega)
    rw [hneed]
    rw [if_pos (Nat.zero_le _)]
    have : fs.totalBlocks - 0 + 1 = fs.totalBlocks + 1 := by omega
    rw [this]
    simp only [scanStart]
    rw [if_pos]
    · rfl
    · unfold runFree
      simp
  refine ⟨halloc, ?_, ?_⟩
  · intro hstrat h
    unfold createFile at h
    by_cases h1 : hasPermission fs parentId .write = false
    · rw [if_pos h1] at h
      exact absurd (Except.error.inj h) (by decide)
    · rw [if_neg h1] at h
      match hp : mapFind fs.nodes parentId with
      | none =>
        simp only [hp] at h
        exact absurd (Except.error.inj h) (by decide)
      | some parent =>
        simp only [hp] at h
        by_cases h2 : parent.isDirectory = false
        · rw [if_pos h2] at h
          exact absurd (Except.error.inj h) (by decide)
        · rw [if_neg h2] at h
          by_cases h3 : nameExists fs parent.children name = true
          · rw [if_pos h3] at h
            have hmsg := Except.error.inj h
            have hhead : ("A file or directory named \"" ++ name ++ "\" already exists").data.head? =
                ("Not enough disk space").data.head? := by rw [hmsg]
            rw [String.data_append, String.data_append, List.append_assoc,
              List.head?_append] at hhead
            simp at hhead
          · rw [if_neg h3] at h
            rw [hstrat] at h
            simp [show contentByteLength "" = 0 from rfl, halloc] at h
  · intro fs' hfresh h
    unfold createFile at h
    by_cases h1 : hasPermission fs parentId .write = false
    · rw [if_pos h1] at h
      cases h
    · rw [if_neg h1] at h
      match hp : mapFind fs.nodes parentId with
      | none =>
        simp only [hp] at h
        cases h
      | some parent =>
        simp only [hp] at h
        by_cases h2 : parent.isDirectory = false
        · rw [if_pos h2] at h
          cases h
        · rw [if_neg h2] at h
          by_cases h3 : nameExists fs parent.children name = true
          · rw [if_pos h3] at h
            cases h
          · rw [if_neg h3] at h
            by_cases hstrat : fs.allocationStrategy = .contiguous
            · rw [hstrat] at h
              simp only [eq_self_iff_true, if_true,
                show contentByteLength "" = 0 from rfl, halloc, Except.ok.injEq] at h
              have hne : parentId ≠ newFileId := by
                intro he
                rw [he, hfresh] at hp
                cases hp
              subst h
              show (mapFind (createFileNodes fs parentId name "" ty newFileId parent [] now)
                newFileId).map (fun f => f.blockAllocation.blocks) = some []
              unfold createFileNodes
              rw [mapFind_mapSet_ne _ _ _ _ hne, mapFind_mapSet_self]
              rfl
            · rw [if_neg hstrat] at h
              simp only at h
              cases h

/-- Witness for C9 on a full disk: every block of `fullDiskFs` is owned,
yet the zero-byte allocation succeeds with the empty run and creating the
empty file `e.txt` yields a file with no blocks. -/
theorem C9_empty_content_zero_blocks_witness :
    allocateBlocksContiguous fullDiskFs 0 = some []
    ∧ createFile fullDiskFs "r" "e.txt" "" "text/plain" "fe" 7 ≠ .error "Not enough disk space"
    ∧ (mapFind fullDiskCreated.nodes "fe").map (fun f => f.blockAllocation.blocks) = some [] := by
  obtain ⟨h1, h2, h3⟩ :=
    C9_empty_content_zero_blocks fullDiskFs "r" "e.txt" "text/plain" "fe" 7 (by decide)
  exact ⟨h1, h2 rfl, h3 fullDiskCreated rfl rfl⟩

/-! ## C1: recursive removal (Scenario B) -/

/-- C1, evaluated at the Scenario B snapshot (directory `x` containing
file `f`, the admin current user holding write permission on both).
Non-recursive `removeNode` fails with `Directory not empty` as the claim
states; but recursive `removeNode`, which the claim and spec say must
succeed and free `f`'s blocks, instead throws `No such file or
directory`: the source deletes `x` from the node map and detaches it
from its parent before resolving each child by the path `x/<name>`, so
the child resolution can no longer pass through `x`.  At the command
layer `rm -r /x` therefore reports the error and leaves the snapshot
(including `f`'s allocated block) unchanged. -/
theorem C1_removeNode_recursive_is_broken :
    (mapFind scenarioB2.nodes "dirX").map (fun d => d.children) = some ["fileF"]
    ∧ hasPermission scenarioB2 "dirX" .write = true
    ∧ hasPermission scenarioB2 "fileF" .write = true
    ∧ removeNode scenarioB2 "/x" false 3 = .error "Directory not empty"
    ∧ removeNode scenarioB2 "/x" true 3 = .error "No such file or directory"
    ∧ cmdRm ["-r", "/x"] scenarioB2 3 = ("rm: /x: No such file or directory", scenarioB2)
    ∧ (scenarioB2.blocks.get? 0).map (fun b => b.fileId) = some (some "fileF") := by
  exact ⟨rfl, rfl, rfl, rfl, rfl, rfl, rfl⟩

/-! ## C7: cyclic moves are rejected -/

theorem cycleWalk_of_hitsChain {fs : FileSystem} {target : String}
    {cur : FileSystemNode} {k : Nat} (h : HitsChain fs target cur k) :
    ∀ fuel, k < fuel → cycleWalk fs fuel cur target = some true := by
  induction h with
  | here cur pid hpid hid =>
    intro fuel hfuel
    match fuel, hfuel with
    | f + 1, _ =>
      unfold cycleWalk
      simp only [hpid]
      rw [if_pos hid]
  | up cur pid p k hpid hid hp _ ih =>
    intro fuel hfuel
    match fuel, hfuel with
    | f + 1, hf =>
      unfold cycleWalk
      simp only [hpid]
      rw [if_neg hid]
      simp only [hp]
      exact ih f (by omega)

/-- C7.  When the destination of `moveNode` is the moving directory
itself or one of its descendants — i.e. the moving directory occurs on
the destination's `parentId` ancestor chain walked up to the root — and
the earlier guards pass (both records exist, the destination is a
directory, and write permission holds on the old parent and on the
destination), `moveNode` fails with the cyclic-move error `Cannot move a
directory into its own subdirectory`; being an error, no new snapshot is
produced and the caller's snapshot is untouched. -/
theorem C7_moveNode_rejects_cycle (fs : FileSystem) (nodeId newParentId : String)
    (now : Nat) (node newParent : FileSystemNode) (k : Nat)
    (hnode : mapFind fs.nodes nodeId = some node)
    (hdir : node.isDirectory = true)
    (hnp : mapFind fs.nodes newParentId = some newParent)
    (hnpd : newParent.isDirectory = true)
    (hperm1 : hasPermissionOpt fs node.parentId .write = true)
    (hperm2 : hasPermission fs newParentId .write = true)
    (hchain : HitsChain fs node.id newParent k)
    (hk : k < fs.nodes.length + 1) :
    moveNode fs nodeId newParentId now =
      .error "Cannot move a directory into its own subdirectory" := by
  unfold moveNode
  simp only [hnode, hnp]
  rw [if_neg (by rw [hnpd]; decide)]
  rw [if_neg (by rw [hperm1, hperm2]; decide)]
  rw [if_pos (by rw [hdir])]
  rw [cycleWalk_of_hitsChain hchain _ hk]

/-- Witness for C7 at Scenario E: moving `dirA` into its child
`childOfDirA` fails with the cyclic-move error. -/
theorem C7_moveNode_rejects_cycle_witness :
    moveNode scenarioE2 "dA" "dC" 3 =
      .error "Cannot move a directory into its own subdirectory" := by
  refine C7_moveNode_rejects_cycle scenarioE2 "dA" "dC" 3 dirANode childOfDirANode 1
    rfl rfl rfl rfl rfl rfl ?_ (by decide)
  refine HitsChain.up childOfDirANode "dA" dirANode 0 rfl (by decide) rfl ?_
  exact HitsChain.here dirANode "rootE" rfl rfl

/-! ## C5: failing mutations leave the snapshot unchanged -/

/-- C5.  Every failing single-path engine mutation leaves the caller's
snapshot exactly as it was: a thrown error carries no new snapshot and
each command handler returns the snapshot it was given (`mkdir`/`touch`
with one name, `rm` with one path, recursive or not); and when
`createFile`'s block allocation fails after the earlier guards pass, the
operation fails with precisely the `Not enough disk space` condition, so
neither the node insertion nor the parent update takes place.
(`moveNode`'s failures likewise return only an error and no snapshot.) -/
theorem C5_failures_leave_snapshot_unchanged (fs : FileSystem) :
    (∀ name supply now e,
        createDirectory fs fs.currentDirectory name (supply 0) now = .error e →
        cmdMkdir [name] fs supply now = ("mkdir: " ++ e, fs))
    ∧ (∀ name supply now e,
        createFile fs fs.currentDirectory name "" "text/plain" (supply 0) now = .error e →
        cmdTouch [name] fs supply now = ("touch: " ++ e, fs))
    ∧ (∀ path now e, path ≠ "-r" → path ≠ "-rf" →
        removeNode fs path false now = .error e →
        cmdRm [path] fs now = ("rm: " ++ path ++ ": " ++ e, fs))
    ∧ (∀ path now e,
        removeNode fs path true now = .error e →
        cmdRm ["-r", path] fs now = ("rm: " ++ path ++ ": " ++ e, fs))
    ∧ (∀ parentId name content ty newFileId now parent,
        hasPermission fs parentId .write = true →
        mapFind fs.nodes parentId = some parent →
        parent.isDirectory = true →
        nameExists fs parent.children name = false →
        fs.allocationStrategy = .contiguous →
        allocateBlocksContiguous fs (contentByteLength content) = none →
        createFile fs parentId name content ty newFileId now =
          .error "Not enough disk space") := by
  refine ⟨?_, ?_, ?_, ?_, ?_⟩
  · intro name supply now e h
    unfold cmdMkdir mkdirGo
    rw [h]
  · intro name supply now e h
    unfold cmdTouch touchGo
    rw [h]
  · intro path now e h1 h2 h
    have hrec : ¬(path = "-r" ∨ path = "-rf") := by
      rintro (h' | h')
      · exact h1 h'
      · exact h2 h'
    simp only [cmdRm]
    rw [if_neg hrec]
    unfold rmGo
    rw [h]
    unfold rmGo rmOut
    rw [if_neg (by simp)]
    simp only [String.intercalate]
    rfl
  · intro path now e h
    simp only [cmdRm]
    rw [if_pos (Or.inl trivial)]
    unfold rmGo
    rw [h]
    unfold rmGo rmOut
    rw [if_neg (by simp)]
    simp only [String.intercalate]
    rfl
  · intro parentId name content ty newFileId now parent h1 hp hdir hdup hstrat halloc
    unfold createFile
    rw [if_neg (by rw [h1]; decide)]
    simp only [hp]
    rw [if_neg (by rw [hdir]; decide)]
    rw [if_neg (by rw [hdup]; decide)]
    rw [hstrat]
    simp only [eq_self_iff_true, if_true, halloc]

/-- Witness for C5 on concrete failures: a duplicate `mkdir x` and
`touch x`, `rm` of a missing path (plain and recursive), and a
`createFile` whose 5-byte content cannot be allocated on the full
one-block disk — each returns its diagnostic with the snapshot the
command started from. -/
theorem C5_failures_leave_snapshot_unchanged_witness :
    cmdMkdir ["x"] scenarioB1 (fun k => "w" ++ toString k) 9 =
      ("mkdir: A file or directory named \"x\" already exists", scenarioB1)
    ∧ cmdTouch ["x"] scenarioB1 (fun k => "w" ++ toString k) 9 =
      ("touch: A file or directory named \"x\" already exists", scenarioB1)
    ∧ cmdRm ["nope"] scenarioB0 9 = ("rm: nope: No such file or directory", scenarioB0)
    ∧ cmdRm ["-r", "nope"] scenarioB0 9 = ("rm: nope: No such file or directory", scenarioB0)
    ∧ createFile fullDiskFs "r" "big.bin" "12345" "text/plain" "fbig" 9 =
      .error "Not enough disk space" := by
  refine ⟨?_, ?_, ?_, ?_, ?_⟩
  · exact (C5_failures_leave_snapshot_unchanged scenarioB1).1 "x" (fun k => "w" ++ toString k) 9 _ rfl
  · exact (C5_failures_leave_snapshot_unchanged scenarioB1).2.1 "x" (fun k => "w" ++ toString k) 9 _ rfl
  · exact (C5_failures_leave_snapshot_unchanged scenarioB0).2.2.1 "nope" 9 _ (by decide) (by decide) rfl
  · exact (C5_failures_leave_snapshot_unchanged scenarioB0).2.2.2.1 "nope" 9 _ rfl
  · exact (C5_failures_leave_snapshot_unchanged fullDiskFs).2.2.2.2 "r" "big.bin" "12345"
      "text/plain" "fbig" 9 (plainRootNode "r" ["zz"]) rfl rfl rfl rfl rfl rfl

/-! ## Well-formedness: establishment and preservation -/

theorem bool_eq_true_of_not_false {b : Bool} (h : ¬ b = false) : b = true := by
  cases b
  · exact absurd rfl h
  · rfl

theorem bool_eq_false_of_not_true {b : Bool} (h : ¬ b = true) : b = false := by
  cases b
  · rfl
  · exact absurd rfl h

theorem nameExists_false_iff {fs : FileSystem} {children : List String} {name : String} :
    nameExists fs children name = false ↔
      ∀ c ∈ children, ∀ m, mapFind fs.nodes c = some m → m.name ≠ name := by
  unfold nameExists
  rw [List.any_eq_false]
  constructor
  · intro h c hc m hm he
    have := h c hc
    rw [hm] at this
    simp [he] at this
  · intro h c hc
    match hm : mapFind fs.nodes c with
    | none => simp
    | some m =>
      simpa using h c hc m hm

theorem nameExists_true_iff {fs : FileSystem} {children : List String} {name : String} :
    nameExists fs children name = true ↔
      ∃ c ∈ children, ∃ m, mapFind fs.nodes c = some m ∧ m.name = name := by
  unfold nameExists
  rw [List.any_eq_true]
  constructor
  · intro ⟨c, hc, hp⟩
    match hm : mapFind fs.nodes c with
    | none =>
      rw [hm] at hp
      cases hp
    | some m =>
      rw [hm] at hp
      exact ⟨c, hc, m, hm, by simpa using hp⟩
  · intro ⟨c, hc, m, hm, he⟩
    refine ⟨c, hc, ?_⟩
    rw [hm]
    simpa using he

theorem WF_initializeFileSystem (blockSize totalBlocks : Nat)
    (rootId adminId : String) (now : Nat) :
    WF (initializeFileSystem blockSize totalBlocks rootId adminId now) := by
  constructor
  · simp [initializeFileSystem, mapKeys]
  · intro p hp
    simp only [initializeFileSystem, List.mem_singleton] at hp
    subst hp
    rfl
  · simp [initializeFileSystem]
  · intro p hp c hc
    simp only [initializeFileSystem, List.mem_singleton] at hp
    subst hp
    simp at hc
  · intro p hp
    simp only [initializeFileSystem, List.mem_singleton] at hp
    subst hp
    simp
  · intro p hp c₁ c₂ m₁ m₂ hc1
    simp only [initializeFileSystem, List.mem_singleton] at hp
    subst hp
    simp at hc1
  · intro p hp
    simp only [initializeFileSystem, List.mem_singleton] at hp
    subst hp
    simp
  · intro i b hb fid hfid
    simp only [initializeFileSystem] at hb
    rw [List.get?_map] at hb
    obtain ⟨j, _, he⟩ := Option.map_eq_some'.mp hb
    rw [← he] at hfid
    cases hfid
  · intro p hp hdir
    simp only [initializeFileSystem, List.mem_singleton] at hp
    subst hp
    cases hdir
  · intro p hp _
    simp only [initializeFileSystem, List.mem_singleton] at hp
    subst hp
    rfl

/-- Inversion of a successful `createDirectory`: the guards passed and the
new snapshot is exactly the two-key update of the node map. -/
theorem createDirectory_ok {fs : FileSystem} {parentId name newDirId : String}
    {now : Nat} {fs' : FileSystem}
    (h : createDirectory fs parentId name newDirId now = .ok fs') :
    hasPermission fs parentId .write = true ∧
    ∃ parent, mapFind fs.nodes parentId = some parent ∧ parent.isDirectory = true ∧
      nameExists fs parent.children name = false ∧
      fs' = { fs with nodes := createDirNodes fs parentId name newDirId parent now } := by
  unfold createDirectory at h
  by_cases h1 : hasPermission fs parentId .write = false
  · rw [if_pos h1] at h
    cases h
  · rw [if_neg h1] at h
    match hp : mapFind fs.nodes parentId with
    | none =>
      simp only [hp] at h
      cases h
    | some parent =>
      simp only [hp] at h
      by_cases h2 : parent.isDirectory = false
      · rw [if_pos h2] at h
        cases h
      · rw [if_neg h2] at h
        by_cases h3 : nameExists fs parent.children name = true
        · rw [if_pos h3] at h
          cases h
        · rw [if_neg h3] at h
          cases h
          exact ⟨bool_eq_true_of_not_false h1, parent, rfl,
            bool_eq_true_of_not_false (fun he => h2 (by rw [he])),
            bool_eq_false_of_not_true h3, rfl⟩

theorem WF_createDirectory {fs : FileSystem} {parentId name newDirId : String}
    {now : Nat} {fs' : FileSystem} (hwf : WF fs)
    (hfresh : mapFind fs.nodes newDirId = none)
    (h : createDirectory fs parentId name newDirId now = .ok fs') : WF fs' := by
  obtain ⟨hperm, parent, hp, hpdir, hdup, hfs'⟩ := createDirectory_ok h
  subst hfs'
  have hpmem : (parentId, parent) ∈ fs.nodes := mapFind_eq_some_mem hp
  have hne : parentId ≠ newDirId := by
    intro he
    rw [he, hfresh] at hp
    cases hp
  have hnodup1 : (mapKeys (mapSet fs.nodes newDirId
      (freshDirRecord fs parentId name newDirId now))).Nodup :=
    nodup_mapKeys_mapSet _ hwf.keysNodup
  have hnodup2 : (mapKeys (createDirNodes fs parentId name newDirId parent now)).Nodup :=
    nodup_mapKeys_mapSet _ hnodup1
  -- where each key now resolves
  have hfind : ∀ c, mapFind (createDirNodes fs parentId name newDirId parent now) c =
      if c = parentId then some (childAppended parent newDirId now)
      else if c = newDirId then some (freshDirRecord fs parentId name newDirId now)
      else mapFind fs.nodes c := by
    intro c
    unfold createDirNodes
    by_cases hc1 : c = parentId
    · subst hc1
      rw [if_pos rfl, mapFind_mapSet_self]
    · rw [if_neg hc1, mapFind_mapSet_ne _ _ _ _ (fun he => hc1 he.symm)]
      by_cases hc2 : c = newDirId
      · subst hc2
        rw [if_pos rfl, mapFind_mapSet_self]
      · rw [if_neg hc2, mapFind_mapSet_ne _ _ _ _ (fun he => hc2 he.symm)]
  -- membership elimination in the new node map
  have hmem : ∀ p, p ∈ createDirNodes fs parentId name newDirId parent now →
      p = (parentId, childAppended parent newDirId now) ∨
      p = (newDirId, freshDirRecord fs parentId name newDirId now) ∨
      (p ∈ fs.nodes ∧ p.1 ≠ parentId ∧ p.1 ≠ newDirId) := by
    intro p hp'
    unfold createDirNodes at hp'
    rcases (mem_mapSet_iff hnodup1).mp hp' with h' | ⟨h', hne1⟩
    · exact Or.inl h'
    rcases (mem_mapSet_iff hwf.keysNodup).mp h' with h'' | ⟨h'', hne2⟩
    · exact Or.inr (Or.inl h'')
    · exact Or.inr (Or.inr ⟨h'', hne1, hne2⟩)
  -- a member of any old children list is not the fresh key, and its
  -- record points back at its parent
  have hchild_ne : ∀ q, (q : String × FileSystemNode) ∈ fs.nodes →
      ∀ c ∈ q.2.children, c ≠ newDirId ∧
        ∀ m, mapFind fs.nodes c = some m → m.parentId = some q.1 := by
    intro q hq c hc
    obtain ⟨m, hm, hlink⟩ := hwf.childLink q hq c hc
    constructor
    · intro he
      rw [he, hfresh] at hm
      cases hm
    · intro m' hm'
      rw [hm] at hm'
      cases hm'
      exact hlink
  -- looked-up names are preserved for keys other than the fresh one
  have hnamepres : ∀ c, c ≠ newDirId → ∀ m',
      mapFind (createDirNodes fs parentId name newDirId parent now) c = some m' →
      ∃ m0, mapFind fs.nodes c = some m0 ∧ m0.name = m'.name := by
    intro c hcne m' hm'
    rw [hfind] at hm'
    by_cases hc1 : c = parentId
    · rw [if_pos hc1] at hm'
      cases hm'
      exact ⟨parent, hc1 ▸ hp, rfl⟩
    · rw [if_neg hc1, if_neg hcne] at hm'
      exact ⟨m', hm', rfl⟩
  have hfresh_notchild : newDirId ∉ parent.children := by
    intro hc
    exact (hchild_ne (parentId, parent) hpmem newDirId hc).1 rfl
  constructor
  · exact hnodup2
  · intro p hp'
    rcases hmem p hp' with h' | h' | ⟨h', _, _⟩
    · rw [h']
      exact hwf.keysMatch (parentId, parent) hpmem
    · rw [h']
      rfl
    · exact hwf.keysMatch p h'
  · exact hwf.blocksLen
  · intro p hp' c hc
    rcases hmem p hp' with h' | h' | ⟨h', hne1, hne2⟩
    · subst h'
      simp only [childAppended, List.mem_append, List.mem_singleton] at hc
      rcases hc with hc | hc
      · obtain ⟨hcne, hlink⟩ := hchild_ne (parentId, parent) hpmem c hc
        obtain ⟨mc, hmc, hmclink⟩ := hwf.childLink (parentId, parent) hpmem c hc
        have hcnp : c ≠ parentId := by
          intro he
          exact hwf.noSelfParent (parentId, parent) hpmem (hlink parent (he.symm ▸ hp))
        refine ⟨mc, ?_, hmclink⟩
        rw [hfind, if_neg hcnp, if_neg hcne]
        exact hmc
      · subst hc
        refine ⟨freshDirRecord fs parentId name c now, ?_, rfl⟩
        rw [hfind, if_neg (fun he => hne he.symm), if_pos rfl]
    · subst h'
      simp only [freshDirRecord] at hc
      simp at hc
    · obtain ⟨m, hm, hlink⟩ := hwf.childLink p h' c hc
      have hcne : c ≠ newDirId := by
        intro he
        rw [he, hfresh] at hm
        cases hm
      by_cases hcp : c = parentId
      · subst hcp
        rw [hp] at hm
        cases hm
        refine ⟨childAppended parent newDirId now, ?_, hlink⟩
        rw [hfind, if_pos rfl]
      · refine ⟨m, ?_, hlink⟩
        rw [hfind, if_neg hcp, if_neg hcne]
        exact hm
  · intro p hp'
    rcases hmem p hp' with h' | h' | ⟨h', _, _⟩
    · subst h'
      simp only [childAppended]
      rw [List.nodup_append]
      refine ⟨hwf.childNodup (parentId, parent) hpmem, List.nodup_singleton _, ?_⟩
      intro a ha hb
      simp only [List.mem_singleton] at hb
      subst hb
      exact hfresh_notchild ha
    · subst h'
      simp [freshDirRecord]
    · exact hwf.childNodup p h'
  · intro p hp' c₁ c₂ m₁ m₂ hc1 hc2 hne12 hf1 hf2
    rcases hmem p hp' with h' | h' | ⟨h', hne1, hne2⟩
    · subst h'
      simp only [childAppended, List.mem_append, List.mem_singleton] at hc1 hc2
      rcases hc1 with hc1 | hc1 <;> rcases hc2 with hc2 | hc2
      · obtain ⟨hcne1, _⟩ := hchild_ne (parentId, parent) hpmem c₁ hc1
        obtain ⟨hcne2, _⟩ := hchild_ne (parentId, parent) hpmem c₂ hc2
        obtain ⟨m01, hm01, hn1⟩ := hnamepres c₁ hcne1 m₁ hf1
        obtain ⟨m02, hm02, hn2⟩ := hnamepres c₂ hcne2 m₂ hf2
        rw [← hn1, ← hn2]
        exact hwf.childNames (parentId, parent) hpmem c₁ c₂ m01 m02 hc1 hc2 hne12 hm01 hm02
      · subst hc2
        obtain ⟨hcne1, _⟩ := hchild_ne (parentId, parent) hpmem c₁ hc1
        obtain ⟨m01, hm01, hn1⟩ := hnamepres c₁ hcne1 m₁ hf1
        rw [hfind, if_neg (fun he => hne he.symm), if_pos rfl] at hf2
        cases hf2
        rw [← hn1]
        exact nameExists_false_iff.mp hdup c₁ hc1 m01 hm01
      · subst hc1
        obtain ⟨hcne2, _⟩ := hchild_ne (parentId, parent) hpmem c₂ hc2
        obtain ⟨m02, hm02, hn2⟩ := hnamepres c₂ hcne2 m₂ hf2
        rw [hfind, if_neg (fun he => hne he.symm), if_pos rfl] at hf1
        cases hf1
        rw [← hn2]
        exact fun he => nameExists_false_iff.mp hdup c₂ hc2 m02 hm02 he.symm
      · subst hc1
        subst hc2
        exact absurd rfl hne12
    · subst h'
      simp only [freshDirRecord] at hc1
      simp at hc1
    · have hcne1 : c₁ ≠ newDirId := by
        intro he
        obtain ⟨hx, _⟩ := hchild_ne p h' c₁ hc1
        exact hx he
      have hcne2 : c₂ ≠ newDirId := by
        intro he
        obtain ⟨hx, _⟩ := hchild_ne p h' c₂ hc2
        exact hx he
      obtain ⟨m01, hm01, hn1⟩ := hnamepres c₁ hcne1 m₁ hf1
      obtain ⟨m02, hm02, hn2⟩ := hnamepres c₂ hcne2 m₂ hf2
      rw [← hn1, ← hn2]
      exact hwf.childNames p h' c₁ c₂ m01 m02 hc1 hc2 hne12 hm01 hm02
  · intro p hp'
    rcases hmem p hp' with h' | h' | ⟨h', _, _⟩
    · subst h'
      exact hwf.noSelfParent (parentId, parent) hpmem
    · subst h'
      simp only [freshDirRecord]
      intro he
      cases he
      exact hne rfl
    · exact hwf.noSelfParent p h'
  · intro i b hb fid hfid
    obtain ⟨n, hn, hnd, hni⟩ := hwf.blockOwner i b hb fid hfid
    have hfne : fid ≠ newDirId := by
      intro he
      rw [he, hfresh] at hn
      cases hn
    have hfnp : fid ≠ parentId := by
      intro he
      rw [he, hp] at hn
      cases hn
      rw [hpdir] at hnd
      cases hnd
    refine ⟨n, ?_, hnd, hni⟩
    rw [hfind, if_neg hfnp, if_neg hfne]
    exact hn
  · intro p hp' hdir i hi
    rcases hmem p hp' with h' | h' | ⟨h', _, _⟩
    · subst h'
      simp only [childAppended] at hdir
      rw [hpdir] at hdir
      cases hdir
    · subst h'
      simp only [freshDirRecord] at hdir
      cases hdir
    · exact hwf.fileBlocks p h' hdir i hi
  · intro p hp' hne'
    rcases hmem p hp' with h' | h' | ⟨h', _, _⟩
    · subst h'
      exact hpdir
    · subst h'
      rfl
    · exact hwf.childrenDir p h' hne'

/-! ### Facts about the block-array writes -/

theorem writeBlocksGo_length (f c : String) (z : Nat) :
    ∀ (idxs : List Nat) (k : Nat) (bs : List Block),
      (writeBlocksGo f c z idxs k bs).length = bs.length := by
  intro idxs
  induction idxs with
  | nil => intro k bs; rfl
  | cons j rest ih =>
    intro k bs
    unfold writeBlocksGo
    rw [ih]
    match hj : bs.get? j with
    | some b => simp only [List.length_set]
    | none => rfl

theorem writeBlocksGo_get?_not_mem (f c : String) (z : Nat) :
    ∀ (idxs : List Nat) (k : Nat) (bs : List Block) (i : Nat), i ∉ idxs →
      (writeBlocksGo f c z idxs k bs).get? i = bs.get? i := by
  intro idxs
  induction idxs with
  | nil => intro k bs i _; rfl
  | cons j rest ih =>
    intro k bs i hi
    have hij : i ≠ j := fun he => hi (he ▸ List.mem_cons_self j rest)
    have hirest : i ∉ rest := fun hr => hi (List.mem_cons_of_mem _ hr)
    unfold writeBlocksGo
    rw [ih (k + 1) _ i hirest]
    match hj : bs.get? j with
    | some b => exact List.get?_set_ne _ _ (fun he => hij he.symm)
    | none => rfl

theorem writeBlocksGo_get?_mem (f c : String) (z : Nat) :
    ∀ (idxs : List Nat) (k : Nat) (bs : List Block) (i : Nat), i ∈ idxs →
      i < bs.length →
      ∃ b', (writeBlocksGo f c z idxs k bs).get? i = some b' ∧ b'.fileId = some f := by
  intro idxs
  induction idxs with
  | nil => intro k bs i hi; simp at hi
  | cons j rest ih =>
    intro k bs i hi hlt
    by_cases hirest : i ∈ rest
    · unfold writeBlocksGo
      apply ih (k + 1) _ i hirest
      match hj : bs.get? j with
      | some b => simpa only [List.length_set] using hlt
      | none => exact hlt
    · have hij : i = j := by
        rcases List.mem_cons.mp hi with h | h
        · exact h
        · exact absurd h hirest
      subst hij
      have hsome : bs.get? i = some (bs.get ⟨i, hlt⟩) := List.get?_eq_get hlt
      unfold writeBlocksGo
      rw [writeBlocksGo_get?_not_mem f c z rest (k + 1) _ i hirest]
      rw [hsome]
      refine ⟨_, List.get?_set_eq_of_lt _ (by simpa using hlt), rfl⟩

theorem freeBlocks_length :
    ∀ (idxs : List Nat) (bs : List Block), (freeBlocks bs idxs).length = bs.length := by
  intro idxs
  induction idxs with
  | nil => intro bs; rfl
  | cons j rest ih =>
    intro bs
    unfold freeBlocks
    rw [ih]
    match hj : bs.get? j with
    | some b => simp only [List.length_set]
    | none => rfl

theorem freeBlocks_get?_not_mem :
    ∀ (idxs : List Nat) (bs : List Block) (i : Nat), i ∉ idxs →
      (freeBlocks bs idxs).get? i = bs.get? i := by
  intro idxs
  induction idxs with
  | nil => intro bs i _; rfl
  | cons j rest ih =>
    intro bs i hi
    have hij : i ≠ j := fun he => hi (he ▸ List.mem_cons_self j rest)
    have hirest : i ∉ rest := fun hr => hi (List.mem_cons_of_mem _ hr)
    unfold freeBlocks
    rw [ih _ i hirest]
    match hj : bs.get? j with
    | some b => exact List.get?_set_ne _ _ (fun he => hij he.symm)
    | none => rfl

theorem freeBlocks_get?_mem :
    ∀ (idxs : List Nat) (bs : List Block) (i : Nat), i ∈ idxs → i < bs.length →
      ∃ b', (freeBlocks bs idxs).get? i = some b' ∧ b'.fileId = none := by
  intro idxs
  induction idxs with
  | nil => intro bs i hi; simp at hi
  | cons j rest ih =>
    intro bs i hi hlt
    by_cases hirest : i ∈ rest
    · unfold freeBlocks
      apply ih _ i hirest
      match hj : bs.get? j with
      | some b => simpa only [List.length_set] using hlt
      | none => exact hlt
    · have hij : i = j := by
        rcases List.mem_cons.mp hi with h | h
        · exact h
        · exact absurd h hirest
      subst hij
      have hsome : bs.get? i = some (bs.get ⟨i, hlt⟩) := List.get?_eq_get hlt
      unfold freeBlocks
      rw [freeBlocks_get?_not_mem rest _ i hirest]
      rw [hsome]
      refine ⟨_, List.get?_set_eq_of_lt _ (by simpa using hlt), rfl⟩

/-- A successful contiguous allocation returns distinct, in-range,
currently-free block indices. -/
theorem allocateBlocksContiguous_ok {fs : FileSystem} {n : Nat} {l : List Nat}
    (h : allocateBlocksContiguous fs n = some l) :
    l.Nodup ∧ ∀ i ∈ l, i < fs.totalBlocks ∧
      ∃ b, fs.blocks.get? i = some b ∧ b.fileId = none := by
  unfold allocateBlocksContiguous at h
  by_cases hbs : fs.blockSize = 0
  · rw [if_pos hbs] at h
    cases h
  · rw [if_neg hbs] at h
    by_cases hle : (n + fs.blockSize - 1) / fs.blockSize ≤ fs.totalBlocks
    · rw [if_pos hle] at h
      obtain ⟨s, hs, he⟩ := Option.map_eq_some'.mp h
      rw [scanStart_eq_some_iff] at hs
      obtain ⟨_, hlt, hfree, _⟩ := hs
      subst he
      constructor
      · exact List.Nodup.map (fun a b hab => by omega) (List.nodup_range _)
      · intro i hi
        obtain ⟨j, hj, he⟩ := List.mem_map.mp hi
        rw [List.mem_range] at hj
        subst he
        exact ⟨by omega, runFree_iff.mp hfree j hj⟩
    · rw [if_neg hle] at h
      cases h

/-- Inversion of a successful `createFile`. -/
theorem createFile_ok {fs : FileSystem} {parentId name content ty newFileId : String}
    {now : Nat} {fs' : FileSystem}
    (h : createFile fs parentId name content ty newFileId now = .ok fs') :
    hasPermission fs parentId .write = true ∧
    fs.allocationStrategy = .contiguous ∧
    ∃ parent blocks, mapFind fs.nodes parentId = some parent ∧
      parent.isDirectory = true ∧
      nameExists fs parent.children name = false ∧
      allocateBlocksContiguous fs (contentByteLength content) = some blocks ∧
      fs' = { fs with
        nodes := createFileNodes fs parentId name content ty newFileId parent blocks now
        blocks := writeBlocks fs.blocks blocks newFileId content fs.blockSize } := by
  unfold createFile at h
  by_cases h1 : hasPermission fs parentId .write = false
  · rw [if_pos h1] at h
    cases h
  · rw [if_neg h1] at h
    match hp : mapFind fs.nodes parentId with
    | none =>
      simp only [hp] at h
      cases h
    | some parent =>
      simp only [hp] at h
      by_cases h2 : parent.isDirectory = false
      · rw [if_pos h2] at h
        cases h
      · rw [if_neg h2] at h
        by_cases h3 : nameExists fs parent.children name = true
        · rw [if_pos h3] at h
          cases h
        · rw [if_neg h3] at h
          by_cases hstrat : fs.allocationStrategy = .contiguous
          · rw [hstrat] at h
            simp only [eq_self_iff_true, if_true] at h
            match halloc : allocateBlocksContiguous fs (contentByteLength content) with
            | none =>
              simp only [halloc] at h
              cases h
            | some blocks =>
              simp only [halloc] at h
              cases h
              exact ⟨bool_eq_true_of_not_false h1, hstrat, parent, blocks, rfl,
                bool_eq_true_of_not_false (fun he => h2 (by rw [he])),
                bool_eq_false_of_not_true h3, rfl, by rw [hstrat]⟩
          · rw [if_neg hstrat] at h
            simp only at h
            cases h

theorem WF_createFile {fs : FileSystem} {parentId name content ty newFileId : String}
    {now : Nat} {fs' : FileSystem} (hwf : WF fs)
    (hfresh : mapFind fs.nodes newFileId = none)
    (h : createFile fs parentId name content ty newFileId now = .ok fs') : WF fs' := by
  obtain ⟨hperm, hstrat, parent, blocks, hp, hpdir, hdup, halloc, hfs'⟩ := createFile_ok h
  subst hfs'
  obtain ⟨hbnodup, hbprops⟩ := allocateBlocksContiguous_ok halloc
  have hpmem : (parentId, parent) ∈ fs.nodes := mapFind_eq_some_mem hp
  have hne : parentId ≠ newFileId := by
    intro he
    rw [he, hfresh] at hp
    cases hp
  have hnodup1 : (mapKeys (mapSet fs.nodes newFileId
      (freshFileRecord fs parentId name content ty newFileId blocks now))).Nodup :=
    nodup_mapKeys_mapSet _ hwf.keysNodup
  have hnodup2 : (mapKeys (createFileNodes fs parentId name content ty newFileId
      parent blocks now)).Nodup :=
    nodup_mapKeys_mapSet _ hnodup1
  have hfind : ∀ c, mapFind (createFileNodes fs parentId name content ty newFileId
      parent blocks now) c =
      if c = parentId then some (childAppended parent newFileId now)
      else if c = newFileId then
        some (freshFileRecord fs parentId name content ty newFileId blocks now)
      else mapFind fs.nodes c := by
    intro c
    unfold createFileNodes
    by_cases hc1 : c = parentId
    · subst hc1
      rw [if_pos rfl, mapFind_mapSet_self]
    · rw [if_neg hc1, mapFind_mapSet_ne _ _ _ _ (fun he => hc1 he.symm)]
      by_cases hc2 : c = newFileId
      · subst hc2
        rw [if_pos rfl, mapFind_mapSet_self]
      · rw [if_neg hc2, mapFind_mapSet_ne _ _ _ _ (fun he => hc2 he.symm)]
  have hmem : ∀ p, p ∈ createFileNodes fs parentId name content ty newFileId
      parent blocks now →
      p = (parentId, childAppended parent newFileId now) ∨
      p = (newFileId, freshFileRecord fs parentId name content ty newFileId blocks now) ∨
      (p ∈ fs.nodes ∧ p.1 ≠ parentId ∧ p.1 ≠ newFileId) := by
    intro p hp'
    unfold createFileNodes at hp'
    rcases (mem_mapSet_iff hnodup1).mp hp' with h' | ⟨h', hne1⟩
    · exact Or.inl h'
    rcases (mem_mapSet_iff hwf.keysNodup).mp h' with h'' | ⟨h'', hne2⟩
    · exact Or.inr (Or.inl h'')
    · exact Or.inr (Or.inr ⟨h'', hne1, hne2⟩)
  have hchild_ne : ∀ q, (q : String × FileSystemNode) ∈ fs.nodes →
      ∀ c ∈ q.2.children, c ≠ newFileId ∧
        ∀ m, mapFind fs.nodes c = some m → m.parentId = some q.1 := by
    intro q hq c hc
    obtain ⟨m, hm, hlink⟩ := hwf.childLink q hq c hc
    constructor
    · intro he
      rw [he, hfresh] at hm
      cases hm
    · intro m' hm'
      rw [hm] at hm'
      cases hm'
      exact hlink
  have hnamepres : ∀ c, c ≠ newFileId → ∀ m',
      mapFind (createFileNodes fs parentId name content ty newFileId parent blocks now) c =
        some m' →
      ∃ m0, mapFind fs.nodes c = some m0 ∧ m0.name = m'.name := by
    intro c hcne m' hm'
    rw [hfind] at hm'
    by_cases hc1 : c = parentId
    · rw [if_pos hc1] at hm'
      cases hm'
      exact ⟨parent, hc1 ▸ hp, rfl⟩
    · rw [if_neg hc1, if_neg hcne] at hm'
      exact ⟨m', hm', rfl⟩
  have hfresh_notchild : newFileId ∉ parent.children := by
    intro hc
    exact (hchild_ne (parentId, parent) hpmem newFileId hc).1 rfl
  have hblen : (writeBlocks fs.blocks blocks newFileId content fs.blockSize).length =
      fs.blocks.length := writeBlocksGo_length _ _ _ _ _ _
  constructor
  · exact hnodup2
  · intro p hp'
    rcases hmem p hp' with h' | h' | ⟨h', _, _⟩
    · rw [h']
      exact hwf.keysMatch (parentId, parent) hpmem
    · rw [h']
      rfl
    · exact hwf.keysMatch p h'
  · rw [hblen]
    exact hwf.blocksLen
  · intro p hp' c hc
    rcases hmem p hp' with h' | h' | ⟨h', hne1, hne2⟩
    · subst h'
      simp only [childAppended, List.mem_append, List.mem_singleton] at hc
      rcases hc with hc | hc
      · obtain ⟨hcne, hlink⟩ := hchild_ne (parentId, parent) hpmem c hc
        obtain ⟨mc, hmc, hmclink⟩ := hwf.childLink (parentId, parent) hpmem c hc
        have hcnp : c ≠ parentId := by
          intro he
          exact hwf.noSelfParent (parentId, parent) hpmem (hlink parent (he.symm ▸ hp))
        refine ⟨mc, ?_, hmclink⟩
        rw [hfind, if_neg hcnp, if_neg hcne]
        exact hmc
      · subst hc
        refine ⟨freshFileRecord fs parentId name content ty c blocks now, ?_, rfl⟩
        rw [hfind, if_neg (fun he => hne he.symm), if_pos rfl]
    · subst h'
      simp only [freshFileRecord] at hc
      simp at hc
    · obtain ⟨m, hm, hlink⟩ := hwf.childLink p h' c hc
      have hcne : c ≠ newFileId := by
        intro he
        rw [he, hfresh] at hm
        cases hm
      by_cases hcp : c = parentId
      · subst hcp
        rw [hp] at hm
        cases hm
        refine ⟨childAppended parent newFileId now, ?_, hlink⟩
        rw [hfind, if_pos rfl]
      · refine ⟨m, ?_, hlink⟩
        rw [hfind, if_neg hcp, if_neg hcne]
        exact hm
  · intro p hp'
    rcases hmem p hp' with h' | h' | ⟨h', _, _⟩
    · subst h'
      simp only [childAppended]
      rw [List.nodup_append]
      refine ⟨hwf.childNodup (parentId, parent) hpmem, List.nodup_singleton _, ?_⟩
      intro a ha hb
      simp only [List.mem_singleton] at hb
      subst hb
      exact hfresh_notchild ha
    · subst h'
      simp [freshFileRecord]
    · exact hwf.childNodup p h'
  · intro p hp' c₁ c₂ m₁ m₂ hc1 hc2 hne12 hf1 hf2
    rcases hmem p hp' with h' | h' | ⟨h', hne1, hne2⟩
    · subst h'
      simp only [childAppended, List.mem_append, List.mem_singleton] at hc1 hc2
      rcases hc1 with hc1 | hc1 <;> rcases hc2 with hc2 | hc2
      · obtain ⟨hcne1, _⟩ := hchild_ne (parentId, parent) hpmem c₁ hc1
        obtain ⟨hcne2, _⟩ := hchild_ne (parentId, parent) hpmem c₂ hc2
        obtain ⟨m01, hm01, hn1⟩ := hnamepres c₁ hcne1 m₁ hf1
        obtain ⟨m02, hm02, hn2⟩ := hnamepres c₂ hcne2 m₂ hf2
        rw [← hn1, ← hn2]
        exact hwf.childNames (parentId, parent) hpmem c₁ c₂ m01 m02 hc1 hc2 hne12 hm01 hm02
      · subst hc2
        obtain ⟨hcne1, _⟩ := hchild_ne (parentId, parent) hpmem c₁ hc1
        obtain ⟨m01, hm01, hn1⟩ := hnamepres c₁ hcne1 m₁ hf1
        rw [hfind, if_neg (fun he => hne he.symm), if_pos rfl] at hf2
        cases hf2
        rw [← hn1]
        exact nameExists_false_iff.mp hdup c₁ hc1 m01 hm01
      · subst hc1
        obtain ⟨hcne2, _⟩ := hchild_ne (parentId, parent) hpmem c₂ hc2
        obtain ⟨m02, hm02, hn2⟩ := hnamepres c₂ hcne2 m₂ hf2
        rw [hfind, if_neg (fun he => hne he.symm), if_pos rfl] at hf1
        cases hf1
        rw [← hn2]
        exact fun he => nameExists_false_iff.mp hdup c₂ hc2 m02 hm02 he.symm
      · subst hc1
        subst hc2
        exact absurd rfl hne12
    · subst h'
      simp only [freshFileRecord] at hc1
      simp at hc1
    · have hcne1 : c₁ ≠ newFileId := (hchild_ne p h' c₁ hc1).1
      have hcne2 : c₂ ≠ newFileId := (hchild_ne p h' c₂ hc2).1
      obtain ⟨m01, hm01, hn1⟩ := hnamepres c₁ hcne1 m₁ hf1
      obtain ⟨m02, hm02, hn2⟩ := hnamepres c₂ hcne2 m₂ hf2
      rw [← hn1, ← hn2]
      exact hwf.childNames p h' c₁ c₂ m01 m02 hc1 hc2 hne12 hm01 hm02
  · intro p hp'
    rcases hmem p hp' with h' | h' | ⟨h', _, _⟩
    · subst h'
      exact hwf.noSelfParent (parentId, parent) hpmem
    · subst h'
      simp only [freshFileRecord]
      intro he
      cases he
      exact hne rfl
    · exact hwf.noSelfParent p h'
  · intro i b hb fid hfid
    by_cases hmemb : i ∈ blocks
    · have hlt : i < fs.blocks.length := by
        rw [hwf.blocksLen]
        exact (hbprops i hmemb).1
      obtain ⟨b', hb', hbf⟩ := writeBlocksGo_get?_mem newFileId content fs.blockSize
        blocks 0 fs.blocks i hmemb hlt
      have hbb : b = b' := by
        rw [show writeBlocks fs.blocks blocks newFileId content fs.blockSize =
          writeBlocksGo newFileId content fs.blockSize blocks 0 fs.blocks from rfl] at hb
        rw [hb] at hb'
        cases hb'
        rfl
      subst hbb
      rw [hbf] at hfid
      cases hfid
      refine ⟨freshFileRecord fs parentId name content ty newFileId blocks now, ?_, rfl, hmemb⟩
      rw [hfind, if_neg (fun he => hne he.symm), if_pos rfl]
    · have hb0 : fs.blocks.get? i = some b := by
        rw [show writeBlocks fs.blocks blocks newFileId content fs.blockSize =
          writeBlocksGo newFileId content fs.blockSize blocks 0 fs.blocks from rfl] at hb
        rw [writeBlocksGo_get?_not_mem newFileId content fs.blockSize blocks 0
          fs.blocks i hmemb] at hb
        exact hb
      obtain ⟨n, hn, hnd, hni⟩ := hwf.blockOwner i b hb0 fid hfid
      have hfne : fid ≠ newFileId := by
        intro he
        rw [he, hfresh] at hn
        cases hn
      have hfnp : fid ≠ parentId := by
        intro he
        rw [he, hp] at hn
        cases hn
        rw [hpdir] at hnd
        cases hnd
      refine ⟨n, ?_, hnd, hni⟩
      rw [hfind, if_neg hfnp, if_neg hfne]
      exact hn
  · intro p hp' hdir i hi
    rcases hmem p hp' with h' | h' | ⟨h', hne1, hne2⟩
    · subst h'
      simp only [childAppended] at hdir
      rw [hpdir] at hdir
      cases hdir
    · subst h'
      simp only [freshFileRecord] at hi
      have hlt : i < fs.blocks.length := by
        rw [hwf.blocksLen]
        exact (hbprops i hi).1
      obtain ⟨b', hb', hbf⟩ := writeBlocksGo_get?_mem newFileId content fs.blockSize
        blocks 0 fs.blocks i hi hlt
      exact ⟨b', hb', hbf⟩
    · obtain ⟨b, hb, hbf⟩ := hwf.fileBlocks p h' hdir i hi
      have hnotmem : i ∉ blocks := by
        intro hmemb
        obtain ⟨_, b0, hb0, hb0free⟩ := hbprops i hmemb
        rw [hb] at hb0
        cases hb0
        rw [hbf] at hb0free
        cases hb0free
      refine ⟨b, ?_, hbf⟩
      rw [show writeBlocks fs.blocks blocks newFileId content fs.blockSize =
        writeBlocksGo newFileId content fs.blockSize blocks 0 fs.blocks from rfl]
      rw [writeBlocksGo_get?_not_mem newFileId content fs.blockSize blocks 0
        fs.blocks i hnotmem]
      exact hb
  · intro p hp' hne'
    rcases hmem p hp' with h' | h' | ⟨h', _, _⟩
    · subst h'
      exact hpdir
    · subst h'
      exact absurd rfl hne'
    · exact hwf.childrenDir p h' hne'

/-- Inversion of a successful `moveNode`. -/
theorem moveNode_ok {fs : FileSystem} {nodeId newParentId : String} {now : Nat}
    {fs' : FileSystem} (h : moveNode fs nodeId newParentId now = .ok fs') :
    ∃ node newParent oldParentId oldParent,
      mapFind fs.nodes nodeId = some node ∧
      mapFind fs.nodes newParentId = some newParent ∧
      newParent.isDirectory = true ∧
      (if node.isDirectory then cycleWalk fs (fs.nodes.length + 1) newParent node.id
        else some false : Option Bool) = some false ∧
      nameExists fs newParent.children node.name = false ∧
      node.parentId = some oldParentId ∧
      mapFind fs.nodes oldParentId = some oldParent ∧
      fs' = { fs with
        nodes := moveNodesMap fs nodeId newParentId oldParentId node newParent oldParent now } := by
  unfold moveNode at h
  match hnode : mapFind fs.nodes nodeId with
  | none =>
    simp only [hnode] at h
    cases h
  | some node =>
    simp only [hnode] at h
    match hnp : mapFind fs.nodes newParentId with
    | none =>
      simp only [hnp] at h
      cases h
    | some newParent =>
      simp only [hnp] at h
      by_cases h1 : newParent.isDirectory = false
      · rw [if_pos h1] at h
        cases h
      · rw [if_neg h1] at h
        by_cases h2 : (hasPermissionOpt fs node.parentId .write = false) ∨
            (hasPermission fs newParentId .write = false)
        · rw [if_pos h2] at h
          cases h
        · rw [if_neg h2] at h
          match hcyc : (if node.isDirectory then
              cycleWalk fs (fs.nodes.length + 1) newParent node.id
            else some false : Option Bool) with
          | some true =>
            simp only [hcyc] at h
            cases h
          | none =>
            simp only [hcyc] at h
            cases h
          | some false =>
            simp only [hcyc] at h
            by_cases h3 : nameExists fs newParent.children node.name = true
            · rw [if_pos h3] at h
              cases h
            · rw [if_neg h3] at h
              match hop : node.parentId with
              | none =>
                simp only [hop] at h
                cases h
              | some oldParentId =>
                simp only [hop] at h
                match hopn : mapFind fs.nodes oldParentId with
                | none =>
                  simp only [hopn] at h
                  cases h
                | some oldParent =>
                  simp only [hopn] at h
                  cases h
                  exact ⟨node, newParent, oldParentId, oldParent, rfl, rfl,
                    bool_eq_true_of_not_false (fun he => h1 (by rw [he])),
                    hcyc, bool_eq_false_of_not_true h3, hop, hopn, rfl⟩

theorem WF_moveNode {fs : FileSystem} {nodeId newParentId : String} {now : Nat}
    {fs' : FileSystem} (hwf : WF fs)
    (h : moveNode fs nodeId newParentId now = .ok fs') : WF fs' := by
  obtain ⟨node, newParent, oldParentId, oldParent, hnode, hnp, hnpdir, hcyc, hdup,
    hop, hopn, hfs'⟩ := moveNode_ok h
  subst hfs'
  have hnodemem : (nodeId, node) ∈ fs.nodes := mapFind_eq_some_mem hnode
  have hnpmem : (newParentId, newParent) ∈ fs.nodes := mapFind_eq_some_mem hnp
  have hopmem : (oldParentId, oldParent) ∈ fs.nodes := mapFind_eq_some_mem hopn
  have hnodeid : node.id = nodeId := hwf.keysMatch (nodeId, node) hnodemem
  -- the destination cannot be the moving node itself
  have hNewNe : newParentId ≠ nodeId := by
    intro he
    subst he
    rw [hnode] at hnp
    cases hnp
    by_cases hd : node.isDirectory = true
    · rw [if_pos (by rw [hd])] at hcyc
      unfold cycleWalk at hcyc
      simp only [hop] at hcyc
      simp at hcyc
    · rw [hnpdir] at hd
      exact hd rfl
  -- the old parent key is not the moving node
  have hOldNe : oldParentId ≠ nodeId := by
    intro he
    subst he
    exact hwf.noSelfParent (oldParentId, node) hnodemem hop
  -- the moving node is not already a child of the destination
  have hnodeNotNew : nodeId ∉ newParent.children := by
    intro hc
    exact nameExists_false_iff.mp hdup nodeId hc node hnode rfl
  have hnodup1 : (mapKeys (mapSet fs.nodes nodeId
      { node with parentId := some newParentId })).Nodup :=
    nodup_mapKeys_mapSet _ hwf.keysNodup
  have hnodup2 : (mapKeys (mapSet (mapSet fs.nodes nodeId
      { node with parentId := some newParentId }) oldParentId
      (childRemoved oldParent nodeId now))).Nodup :=
    nodup_mapKeys_mapSet _ hnodup1
  have hnodup3 : (mapKeys (moveNodesMap fs nodeId newParentId oldParentId
      node newParent oldParent now)).Nodup :=
    nodup_mapKeys_mapSet _ hnodup2
  have hfind : ∀ c, mapFind (moveNodesMap fs nodeId newParentId oldParentId
      node newParent oldParent now) c =
      if c = newParentId then some (childAppended newParent nodeId now)
      else if c = oldParentId then some (childRemoved oldParent nodeId now)
      else if c = nodeId then some { node with parentId := some newParentId }
      else mapFind fs.nodes c := by
    intro c
    unfold moveNodesMap
    by_cases hc1 : c = newParentId
    · subst hc1
      rw [if_pos rfl, mapFind_mapSet_self]
    · rw [if_neg hc1, mapFind_mapSet_ne _ _ _ _ (fun he => hc1 he.symm)]
      by_cases hc2 : c = oldParentId
      · subst hc2
        rw [if_pos rfl, mapFind_mapSet_self]
      · rw [if_neg hc2, mapFind_mapSet_ne _ _ _ _ (fun he => hc2 he.symm)]
        by_cases hc3 : c = nodeId
        · subst hc3
          rw [if_pos rfl, mapFind_mapSet_self]
        · rw [if_neg hc3, mapFind_mapSet_ne _ _ _ _ (fun he => hc3 he.symm)]
  have hmem : ∀ p, p ∈ moveNodesMap fs nodeId newParentId oldParentId
      node newParent oldParent now →
      p = (newParentId, childAppended newParent nodeId now) ∨
      (p = (oldParentId, childRemoved oldParent nodeId now) ∧ oldParentId ≠ newParentId) ∨
      (p = (nodeId, { node with parentId := some newParentId }) ∧
        nodeId ≠ newParentId ∧ nodeId ≠ oldParentId) ∨
      (p ∈ fs.nodes ∧ p.1 ≠ newParentId ∧ p.1 ≠ oldParentId ∧ p.1 ≠ nodeId) := by
    intro p hp'
    unfold moveNodesMap at hp'
    rcases (mem_mapSet_iff hnodup2).mp hp' with h' | ⟨h', hne1⟩
    · exact Or.inl h'
    rcases (mem_mapSet_iff hnodup1).mp h' with h'' | ⟨h'', hne2⟩
    · refine Or.inr (Or.inl ⟨h'', ?_⟩)
      rw [h''] at hne1
      exact hne1
    rcases (mem_mapSet_iff hwf.keysNodup).mp h'' with hthree | ⟨hthree, hne3⟩
    · refine Or.inr (Or.inr (Or.inl ⟨hthree, ?_, ?_⟩))
      · rw [hthree] at hne1
        exact hne1
      · rw [hthree] at hne2
        exact hne2
    · exact Or.inr (Or.inr (Or.inr ⟨hthree, hne1, hne2, hne3⟩))
  -- every key of the new map resolves to a record with the same name,
  -- directory flag and block allocation as its old record
  have hpres : ∀ c m', mapFind (moveNodesMap fs nodeId newParentId oldParentId
      node newParent oldParent now) c = some m' →
      ∃ m0, mapFind fs.nodes c = some m0 ∧ m0.name = m'.name ∧
        m0.isDirectory = m'.isDirectory ∧ m0.blockAllocation = m'.blockAllocation := by
    intro c m' hm'
    rw [hfind] at hm'
    by_cases hc1 : c = newParentId
    · rw [if_pos hc1] at hm'
      cases hm'
      exact ⟨newParent, hc1 ▸ hnp, rfl, rfl, rfl⟩
    · rw [if_neg hc1] at hm'
      by_cases hc2 : c = oldParentId
      · rw [if_pos hc2] at hm'
        cases hm'
        exact ⟨oldParent, hc2 ▸ hopn, rfl, rfl, rfl⟩
      · rw [if_neg hc2] at hm'
        by_cases hc3 : c = nodeId
        · rw [if_pos hc3] at hm'
          cases hm'
          exact ⟨node, hc3 ▸ hnode, rfl, rfl, rfl⟩
        · rw [if_neg hc3] at hm'
          exact ⟨m', hm', rfl, rfl, rfl⟩
  -- and conversely every old record keeps its flags under the new map
  have hpres' : ∀ c m0, mapFind fs.nodes c = some m0 →
      ∃ m', mapFind (moveNodesMap fs nodeId newParentId oldParentId
        node newParent oldParent now) c = some m' ∧
        m0.isDirectory = m'.isDirectory ∧ m0.blockAllocation = m'.blockAllocation := by
    intro c m0 hm0
    rw [hfind]
    by_cases hc1 : c = newParentId
    · rw [if_pos hc1]
      rw [hc1, hnp] at hm0
      cases hm0
      exact ⟨_, rfl, rfl, rfl⟩
    · rw [if_neg hc1]
      by_cases hc2 : c = oldParentId
      · rw [if_pos hc2]
        rw [hc2, hopn] at hm0
        cases hm0
        exact ⟨_, rfl, rfl, rfl⟩
      · rw [if_neg hc2]
        by_cases hc3 : c = nodeId
        · rw [if_pos hc3]
          rw [hc3, hnode] at hm0
          cases hm0
          exact ⟨_, rfl, rfl, rfl⟩
        · rw [if_neg hc3]
          exact ⟨m0, hm0, rfl, rfl⟩
  constructor
  · exact hnodup3
  · intro p hp'
    rcases hmem p hp' with h' | ⟨h', _⟩ | ⟨h', _, _⟩ | ⟨h', _, _, _⟩
    · rw [h']
      exact hwf.keysMatch (newParentId, newParent) hnpmem
    · rw [h']
      exact hwf.keysMatch (oldParentId, oldParent) hopmem
    · rw [h']
      exact hnodeid
    · exact hwf.keysMatch p h'
  · exact hwf.blocksLen
  · intro p hp' c hc
    rcases hmem p hp' with h' | ⟨h', _⟩ | ⟨h', _, _⟩ | ⟨h', hne1, hne2, hne3⟩
    · subst h'
      simp only [childAppended, List.mem_append, List.mem_singleton] at hc
      rcases hc with hc | hc
      · obtain ⟨m, hm, hlink⟩ := hwf.childLink (newParentId, newParent) hnpmem c hc
        rw [hfind]
        by_cases hc1 : c = newParentId
        · rw [hc1, hnp] at hm
          cases hm
          exact absurd hlink (hc1 ▸ hwf.noSelfParent (newParentId, newParent) hnpmem)
        · rw [if_neg hc1]
          by_cases hc2 : c = oldParentId
          · rw [if_pos hc2]
            rw [hc2, hopn] at hm
            cases hm
            exact ⟨_, rfl, hlink⟩
          · rw [if_neg hc2]
            by_cases hc3 : c = nodeId
            · exact absurd (hc3 ▸ hc) hnodeNotNew
            · rw [if_neg hc3]
              exact ⟨m, hm, hlink⟩
      · subst hc
        rw [hfind, if_neg (fun he => hNewNe he.symm),
          if_neg (fun he => hOldNe he.symm), if_pos rfl]
        exact ⟨_, rfl, rfl⟩
    · subst h'
      simp only [childRemoved, List.mem_filter] at hc
      obtain ⟨hc, hcne⟩ := hc
      have hcnid : c ≠ nodeId := by simpa using hcne
      obtain ⟨m, hm, hlink⟩ := hwf.childLink (oldParentId, oldParent) hopmem c hc
      rw [hfind]
      by_cases hc1 : c = newParentId
      · rw [if_pos hc1]
        rw [hc1, hnp] at hm
        cases hm
        exact ⟨_, rfl, hlink⟩
      · rw [if_neg hc1]
        by_cases hc2 : c = oldParentId
        · rw [hc2, hopn] at hm
          cases hm
          exact absurd hlink (hc2 ▸ hwf.noSelfParent (oldParentId, oldParent) hopmem)
        · rw [if_neg hc2, if_neg hcnid]
          exact ⟨m, hm, hlink⟩
    · subst h'
      simp only at hc
      obtain ⟨m, hm, hlink⟩ := hwf.childLink (nodeId, node) hnodemem c hc
      rw [hfind]
      by_cases hc1 : c = newParentId
      · rw [if_pos hc1]
        rw [hc1, hnp] at hm
        cases hm
        exact ⟨_, rfl, hlink⟩
      · rw [if_neg hc1]
        by_cases hc2 : c = oldParentId
        · rw [if_pos hc2]
          rw [hc2, hopn] at hm
          cases hm
          exact ⟨_, rfl, hlink⟩
        · rw [if_neg hc2]
          by_cases hc3 : c = nodeId
          · rw [hc3, hnode] at hm
            cases hm
            exact absurd hlink (hc3 ▸ hwf.noSelfParent (nodeId, node) hnodemem)
          · rw [if_neg hc3]
            exact ⟨m, hm, hlink⟩
    · obtain ⟨m, hm, hlink⟩ := hwf.childLink p h' c hc
      rw [hfind]
      by_cases hc1 : c = newParentId
      · rw [if_pos hc1]
        rw [hc1, hnp] at hm
        cases hm
        exact ⟨_, rfl, hlink⟩
      · rw [if_neg hc1]
        by_cases hc2 : c = oldParentId
        · rw [if_pos hc2]
          rw [hc2, hopn] at hm
          cases hm
          exact ⟨_, rfl, hlink⟩
        · rw [if_neg hc2]
          by_cases hc3 : c = nodeId
          · rw [hc3, hnode] at hm
            cases hm
            rw [hop] at hlink
            cases hlink
            exact absurd rfl hne2
          · rw [if_neg hc3]
            exact ⟨m, hm, hlink⟩
  · intro p hp'
    rcases hmem p hp' with h' | ⟨h', _⟩ | ⟨h', _, _⟩ | ⟨h', _, _, _⟩
    · subst h'
      simp only [childAppended]
      rw [List.nodup_append]
      exact ⟨hwf.childNodup (newParentId, newParent) hnpmem, List.nodup_singleton _,
        fun a ha hb => by
          simp only [List.mem_singleton] at hb
          subst hb
          exact hnodeNotNew ha⟩
    · subst h'
      exact List.Nodup.filter _ (hwf.childNodup (oldParentId, oldParent) hopmem)
    · subst h'
      exact hwf.childNodup (nodeId, node) hnodemem
    · exact hwf.childNodup p h'
  · intro p hp' c₁ c₂ m₁ m₂ hc1 hc2 hne12 hf1 hf2
    obtain ⟨m01, hm01, hn1, _, _⟩ := hpres c₁ m₁ hf1
    obtain ⟨m02, hm02, hn2, _, _⟩ := hpres c₂ m₂ hf2
    rw [← hn1, ← hn2]
    rcases hmem p hp' with h' | ⟨h', _⟩ | ⟨h', _, _⟩ | ⟨h', _, _, _⟩
    · subst h'
      simp only [childAppended, List.mem_append, List.mem_singleton] at hc1 hc2
      rcases hc1 with hc1 | hc1 <;> rcases hc2 with hc2 | hc2
      · exact hwf.childNames (newParentId, newParent) hnpmem c₁ c₂ m01 m02 hc1 hc2
          hne12 hm01 hm02
      · subst hc2
        rw [hnode] at hm02
        cases hm02
        exact nameExists_false_iff.mp hdup c₁ hc1 m01 hm01
      · subst hc1
        rw [hnode] at hm01
        cases hm01
        exact fun he => nameExists_false_iff.mp hdup c₂ hc2 m02 hm02 he.symm
      · subst hc1
        subst hc2
        exact absurd rfl hne12
    · subst h'
      simp only [childRemoved, List.mem_filter] at hc1 hc2
      exact hwf.childNames (oldParentId, oldParent) hopmem c₁ c₂ m01 m02 hc1.1 hc2.1
        hne12 hm01 hm02
    · subst h'
      exact hwf.childNames (nodeId, node) hnodemem c₁ c₂ m01 m02 hc1 hc2 hne12 hm01 hm02
    · exact hwf.childNames p h' c₁ c₂ m01 m02 hc1 hc2 hne12 hm01 hm02
  · intro p hp'
    rcases hmem p hp' with h' | ⟨h', _⟩ | ⟨h', _, _⟩ | ⟨h', _, _, _⟩
    · subst h'
      exact hwf.noSelfParent (newParentId, newParent) hnpmem
    · subst h'
      exact hwf.noSelfParent (oldParentId, oldParent) hopmem
    · subst h'
      simp only
      intro he
      cases he
      exact hNewNe rfl
    · exact hwf.noSelfParent p h'
  · intro i b hb fid hfid
    obtain ⟨n, hn, hnd, hni⟩ := hwf.blockOwner i b hb fid hfid
    obtain ⟨m', hm', hd', hba'⟩ := hpres' fid n hn
    refine ⟨m', hm', ?_, ?_⟩
    · rw [← hd']
      exact hnd
    · rw [← hba']
      exact hni
  · intro p hp' hdir i hi
    rcases hmem p hp' with h' | ⟨h', _⟩ | ⟨h', _, _⟩ | ⟨h', _, _, _⟩
    · subst h'
      simp only [childAppended] at hdir
      rw [hnpdir] at hdir
      cases hdir
    · subst h'
      simp only [childRemoved] at hdir hi
      exact hwf.fileBlocks (oldParentId, oldParent) hopmem hdir i hi
    · subst h'
      simp only at hdir hi
      exact hwf.fileBlocks (nodeId, node) hnodemem hdir i hi
    · exact hwf.fileBlocks p h' hdir i hi
  · intro p hp' hne'
    rcases hmem p hp' with h' | ⟨h', _⟩ | ⟨h', _, _⟩ | ⟨h', _, _, _⟩
    · subst h'
      exact hnpdir
    · subst h'
      refine hwf.childrenDir (oldParentId, oldParent) hopmem ?_
      intro he
      apply hne'
      simp only [childRemoved]
      rw [(he : oldParent.children = [])]
      rfl
    · subst h'
      exact hwf.childrenDir (nodeId, node) hnodemem hne'
    · exact hwf.childrenDir p h' hne'

/-- A successful path walk lands either on the node it started from or on
a record reached through a `fs.nodes` lookup. -/
theorem walkSegments_result {fs : FileSystem} :
    ∀ (parts : List String) (cur n : FileSystemNode),
      walkSegments fs parts cur = some n →
      n = cur ∨ ∃ cid, mapFind fs.nodes cid = some n := by
  intro parts
  induction parts with
  | nil =>
    intro cur n h
    exact Or.inl (Option.some.inj h).symm
  | cons part rest ih =>
    intro cur n h
    rw [walkSegments] at h
    by_cases hd : cur.isDirectory = true
    · rw [if_pos hd] at h
      match hfc : cur.children.find? (fun cid =>
          match mapFind fs.nodes cid with
          | some child => child.name = part
          | none => false) with
      | none =>
        simp only [hfc] at h
        cases h
      | some cid =>
        simp only [hfc] at h
        match hc : mapFind fs.nodes cid with
        | none =>
          simp only [hc] at h
          cases h
        | some child =>
          simp only [hc] at h
          rcases ih child n h with he | hex
          · exact Or.inr ⟨cid, by rw [hc, he]⟩
          · exact Or.inr hex
    · rw [if_neg hd] at h
      cases h

/-- In a well-formed snapshot, the root the source's `find` returns is a
genuine entry of the node map under its own id. -/
theorem findRootNode_find {fs : FileSystem} (hwf : WF fs) {n : FileSystemNode}
    (h : findRootNode fs = some n) : mapFind fs.nodes n.id = some n := by
  unfold findRootNode at h
  obtain ⟨p, hp, he⟩ := Option.map_eq_some'.mp h
  have hpmem : p ∈ fs.nodes := List.mem_of_find?_eq_some hp
  subst he
  rw [hwf.keysMatch p hpmem]
  exact mem_mapFind hwf.keysNodup hpmem

/-- In a well-formed snapshot, path resolution only ever returns a record
stored in the node map under its own id. -/
theorem getNodeByPath_find {fs : FileSystem} (hwf : WF fs) {path : String}
    {n : FileSystemNode} (h : getNodeByPath fs path = some n) :
    mapFind fs.nodes n.id = some n := by
  unfold getNodeByPath at h
  by_cases hp : path = "/"
  · rw [if_pos hp] at h
    exact findRootNode_find hwf h
  · rw [if_neg hp] at h
    match hr : findRootNode fs with
    | none =>
      simp only [hr] at h
      cases h
    | some root =>
      simp only [hr] at h
      rcases walkSegments_result _ _ _ h with he | ⟨cid, hc⟩
      · subst he
        exact findRootNode_find hwf hr
      · have hmem := mapFind_eq_some_mem hc
        rw [hwf.keysMatch (cid, n) hmem]
        exact hc

/-- The single-node deletion step of `removeNode` preserves
well-formedness.  The intermediate snapshot of a recursive removal has
the children of the deleted directory still present with a dangling
`parentId`, which no `WF` field forbids. -/
theorem WF_removeStepFs {fs : FileSystem} {node parent : FileSystemNode}
    {parentId : String} {now : Nat} (hwf : WF fs)
    (hnodefind : mapFind fs.nodes node.id = some node)
    (hpid : node.parentId = some parentId)
    (hpn : mapFind fs.nodes parentId = some parent) :
    WF (removeStepFs fs node parentId parent now) := by
  have hnodemem : (node.id, node) ∈ fs.nodes := mapFind_eq_some_mem hnodefind
  have hpmem : (parentId, parent) ∈ fs.nodes := mapFind_eq_some_mem hpn
  have hparne : parentId ≠ node.id := by
    intro he
    exact hwf.noSelfParent (node.id, node) hnodemem (by rw [hpid, he])
  have hnodup1 : (mapKeys (mapErase fs.nodes node.id)).Nodup :=
    nodup_mapKeys_mapErase hwf.keysNodup
  have hnodup2 : (mapKeys (removeNodesMap fs node.id parentId parent now)).Nodup := by
    unfold removeNodesMap
    exact nodup_mapKeys_mapSet _ hnodup1
  have hfind : ∀ c, mapFind (removeNodesMap fs node.id parentId parent now) c =
      if c = parentId then some (childRemoved parent node.id now)
      else if c = node.id then none
      else mapFind fs.nodes c := by
    intro c
    unfold removeNodesMap
    by_cases hc1 : c = parentId
    · subst hc1
      rw [if_pos rfl, mapFind_mapSet_self]
    · rw [if_neg hc1, mapFind_mapSet_ne _ _ _ _ (fun he => hc1 he.symm)]
      by_cases hc2 : c = node.id
      · subst hc2
        rw [if_pos rfl, mapFind_mapErase_self]
      · rw [if_neg hc2, mapFind_mapErase_ne _ _ _ (fun he => hc2 he.symm)]
  have hmem : ∀ p, p ∈ removeNodesMap fs node.id parentId parent now →
      p = (parentId, childRemoved parent node.id now) ∨
      (p ∈ fs.nodes ∧ p.1 ≠ parentId ∧ p.1 ≠ node.id) := by
    intro p hp'
    unfold removeNodesMap at hp'
    rcases (mem_mapSet_iff hnodup1).mp hp' with h' | ⟨h', hne1⟩
    · exact Or.inl h'
    · rcases mem_mapErase_iff.mp h' with ⟨h'', hne2⟩
      exact Or.inr ⟨h'', hne1, hne2⟩
  -- the deleted node can appear in the children of its parent only
  have hOnlyParent : ∀ q ∈ fs.nodes, node.id ∈ q.2.children → q = (parentId, parent) := by
    intro q hq hmemc
    obtain ⟨m, hm, hlink⟩ := hwf.childLink q hq _ hmemc
    rw [hnodefind] at hm
    cases hm
    rw [hpid] at hlink
    have hq1 : parentId = q.1 := Option.some.inj hlink
    have hfq : mapFind fs.nodes q.1 = some q.2 := mem_mapFind hwf.keysNodup hq
    rw [← hq1, hpn] at hfq
    have hq2 : parent = q.2 := Option.some.inj hfq
    rw [hq1, hq2]
  have hpres : ∀ c m', mapFind (removeNodesMap fs node.id parentId parent now) c =
      some m' → ∃ m0, mapFind fs.nodes c = some m0 ∧ m0.name = m'.name ∧
      m0.isDirectory = m'.isDirectory ∧ m0.blockAllocation = m'.blockAllocation := by
    intro c m' hm'
    rw [hfind] at hm'
    by_cases hc1 : c = parentId
    · rw [if_pos hc1] at hm'
      cases hm'
      exact ⟨parent, hc1 ▸ hpn, rfl, rfl, rfl⟩
    · rw [if_neg hc1] at hm'
      by_cases hc2 : c = node.id
      · rw [if_pos hc2] at hm'
        cases hm'
      · rw [if_neg hc2] at hm'
        exact ⟨m', hm', rfl, rfl, rfl⟩
  have hblen : (if node.isDirectory = true then fs.blocks
      else freeBlocks fs.blocks node.blockAllocation.blocks).length = fs.totalBlocks := by
    by_cases hd : node.isDirectory = true
    · rw [if_pos hd]
      exact hwf.blocksLen
    · rw [if_neg hd, freeBlocks_length]
      exact hwf.blocksLen
  have hkm : ∀ p ∈ removeNodesMap fs node.id parentId parent now, p.2.id = p.1 := by
    intro p hp'
    rcases hmem p hp' with h' | ⟨h', _, _⟩
    · subst h'
      exact hwf.keysMatch (parentId, parent) hpmem
    · exact hwf.keysMatch p h'
  have hcl : ∀ p ∈ removeNodesMap fs node.id parentId parent now, ∀ c ∈ p.2.children,
      ∃ m, mapFind (removeNodesMap fs node.id parentId parent now) c = some m ∧
        m.parentId = some p.1 := by
    intro p hp' c hc
    rcases hmem p hp' with h' | ⟨h', hne1, hne2⟩
    · subst h'
      simp only [childRemoved, List.mem_filter] at hc
      obtain ⟨hc, hcne⟩ := hc
      have hcnid : c ≠ node.id := by simpa using hcne
      obtain ⟨m, hm, hlink⟩ := hwf.childLink (parentId, parent) hpmem c hc
      rw [hfind]
      by_cases hc1 : c = parentId
      · rw [hc1, hpn] at hm
        cases hm
        exact absurd hlink (hc1 ▸ hwf.noSelfParent (parentId, parent) hpmem)
      · rw [if_neg hc1, if_neg hcnid]
        exact ⟨m, hm, hlink⟩
    · obtain ⟨m, hm, hlink⟩ := hwf.childLink p h' c hc
      rw [hfind]
      by_cases hc1 : c = parentId
      · rw [if_pos hc1]
        rw [hc1, hpn] at hm
        cases hm
        exact ⟨_, rfl, hlink⟩
      · rw [if_neg hc1]
        by_cases hc2 : c = node.id
        · subst hc2
          have hqe := hOnlyParent p h' hc
          rw [hqe] at hne1
          exact absurd rfl hne1
        · rw [if_neg hc2]
          exact ⟨m, hm, hlink⟩
  have hcd : ∀ p ∈ removeNodesMap fs node.id parentId parent now, p.2.children.Nodup := by
    intro p hp'
    rcases hmem p hp' with h' | ⟨h', _, _⟩
    · subst h'
      exact List.Nodup.filter _ (hwf.childNodup (parentId, parent) hpmem)
    · exact hwf.childNodup p h'
  have hcn : ∀ p ∈ removeNodesMap fs node.id parentId parent now,
      ∀ c₁ c₂ m₁ m₂, c₁ ∈ p.2.children → c₂ ∈ p.2.children → c₁ ≠ c₂ →
      mapFind (removeNodesMap fs node.id parentId parent now) c₁ = some m₁ →
      mapFind (removeNodesMap fs node.id parentId parent now) c₂ = some m₂ →
      m₁.name ≠ m₂.name := by
    intro p hp' c₁ c₂ m₁ m₂ hc1 hc2 hne12 hf1 hf2
    obtain ⟨m01, hm01, hn1, _, _⟩ := hpres c₁ m₁ hf1
    obtain ⟨m02, hm02, hn2, _, _⟩ := hpres c₂ m₂ hf2
    rw [← hn1, ← hn2]
    rcases hmem p hp' with h' | ⟨h', _, _⟩
    · subst h'
      simp only [childRemoved, List.mem_filter] at hc1 hc2
      exact hwf.childNames (parentId, parent) hpmem c₁ c₂ m01 m02 hc1.1 hc2.1
        hne12 hm01 hm02
    · exact hwf.childNames p h' c₁ c₂ m01 m02 hc1 hc2 hne12 hm01 hm02
  have hnsp : ∀ p ∈ removeNodesMap fs node.id parentId parent now,
      p.2.parentId ≠ some p.1 := by
    intro p hp'
    rcases hmem p hp' with h' | ⟨h', _, _⟩
    · subst h'
      exact hwf.noSelfParent (parentId, parent) hpmem
    · exact hwf.noSelfParent p h'
  have hbo : ∀ i b, (if node.isDirectory = true then fs.blocks
      else freeBlocks fs.blocks node.blockAllocation.blocks).get? i = some b →
      ∀ fid, b.fileId = some fid →
      ∃ n, mapFind (removeNodesMap fs node.id parentId parent now) fid = some n ∧
        n.isDirectory = false ∧ i ∈ n.blockAllocation.blocks := by
    intro i b hb fid hfid
    by_cases hd : node.isDirectory = true
    · rw [if_pos hd] at hb
      obtain ⟨n, hn, hnd, hni⟩ := hwf.blockOwner i b hb fid hfid
      rw [hfind]
      by_cases hc1 : fid = parentId
      · rw [if_pos hc1]
        rw [hc1, hpn] at hn
        cases hn
        exact ⟨_, rfl, hnd, hni⟩
      · rw [if_neg hc1]
        by_cases hc2 : fid = node.id
        · rw [hc2, hnodefind] at hn
          cases hn
          rw [hd] at hnd
          cases hnd
        · rw [if_neg hc2]
          exact ⟨n, hn, hnd, hni⟩
    · rw [if_neg hd] at hb
      have hlt : i < fs.blocks.length := by
        obtain ⟨hlt', _⟩ := List.get?_eq_some.mp hb
        rwa [freeBlocks_length] at hlt'
      by_cases hmemb : i ∈ node.blockAllocation.blocks
      · obtain ⟨b', hb', hbf⟩ := freeBlocks_get?_mem _ _ _ hmemb hlt
        rw [hb'] at hb
        cases hb
        rw [hbf] at hfid
        cases hfid
      · rw [freeBlocks_get?_not_mem _ _ _ hmemb] at hb
        obtain ⟨n, hn, hnd, hni⟩ := hwf.blockOwner i b hb fid hfid
        rw [hfind]
        by_cases hc1 : fid = parentId
        · rw [if_pos hc1]
          rw [hc1, hpn] at hn
          cases hn
          exact ⟨_, rfl, hnd, hni⟩
        · rw [if_neg hc1]
          by_cases hc2 : fid = node.id
          · rw [hc2, hnodefind] at hn
            cases hn
            exact absurd hni hmemb
          · rw [if_neg hc2]
            exact ⟨n, hn, hnd, hni⟩
  have hfb : ∀ p ∈ removeNodesMap fs node.id parentId parent now,
      p.2.isDirectory = false → ∀ i ∈ p.2.blockAllocation.blocks,
      ∃ b, (if node.isDirectory = true then fs.blocks
        else freeBlocks fs.blocks node.blockAllocation.blocks).get? i = some b ∧
        b.fileId = some p.1 := by
    intro p hp' hdir i hi
    have hold : ∃ q, q ∈ fs.nodes ∧ q.1 = p.1 ∧ q.2.isDirectory = false ∧
        i ∈ q.2.blockAllocation.blocks ∧ p.1 ≠ node.id := by
      rcases hmem p hp' with h' | ⟨h', hne1, hne2⟩
      · subst h'
        exact ⟨(parentId, parent), hpmem, rfl, hdir, hi, hparne⟩
      · exact ⟨p, h', rfl, hdir, hi, hne2⟩
    obtain ⟨q, hq, hq1, hqd, hqi, hpne⟩ := hold
    obtain ⟨b, hb, hbf⟩ := hwf.fileBlocks q hq hqd i hqi
    rw [hq1] at hbf
    by_cases hd : node.isDirectory = true
    · rw [if_pos hd]
      exact ⟨b, hb, hbf⟩
    · rw [if_neg hd]
      have hinode : i ∉ node.blockAllocation.blocks := by
        intro hin
        obtain ⟨b', hb', hbf'⟩ :=
          hwf.fileBlocks (node.id, node) hnodemem (bool_eq_false_of_not_true hd) i hin
        rw [hb] at hb'
        cases hb'
        rw [hbf] at hbf'
        exact hpne (Option.some.inj hbf')
      rw [freeBlocks_get?_not_mem _ _ _ hinode]
      exact ⟨b, hb, hbf⟩
  have hchd : ∀ p ∈ removeNodesMap fs node.id parentId parent now,
      p.2.children ≠ [] → p.2.isDirectory = true := by
    intro p hp' hne'
    rcases hmem p hp' with h' | ⟨h', _, _⟩
    · subst h'
      refine hwf.childrenDir (parentId, parent) hpmem ?_
      intro he
      apply hne'
      simp only [childRemoved]
      rw [(he : parent.children = [])]
      rfl
    · exact hwf.childrenDir p h' hne'
  exact ⟨hnodup2, hkm, hblen, hcl, hcd, hcn, hnsp, hbo, hfb, hchd⟩

/-- The child loop of the recursive branch preserves any property the
recursive call preserves, starting from any accumulator that has it. -/
theorem rmChildrenFold_WF
    (recurse : FileSystem → String → Except String FileSystem)
    (hrec : ∀ a p b, WF a → recurse a p = .ok b → WF b)
    (origFs : FileSystem) (path : String) :
    ∀ (children : List String) (acc : Except String FileSystem),
      (∀ a, acc = .ok a → WF a) →
      ∀ fs', rmChildrenFold recurse origFs path children acc = .ok fs' → WF fs' := by
  intro children
  induction children with
  | nil =>
    intro acc hacc fs' h
    exact hacc fs' h
  | cons childId rest ih =>
    intro acc hacc fs' h
    rw [rmChildrenFold.eq_def] at h
    simp only [] at h
    refine ih _ ?_ fs' h
    intro a ha
    cases acc with
    | error e => cases ha
    | ok accFs =>
      have hwfacc : WF accFs := hacc accFs rfl
      match hfc : mapFind origFs.nodes childId with
      | none =>
        simp only [hfc] at ha
        cases ha
      | some child =>
        simp only [hfc] at ha
        exact hrec accFs _ a hwfacc ha

/-- `removeNode` (at any fuel) preserves well-formedness. -/
theorem WF_removeNodeFuel :
    ∀ (fuel : Nat) (fs : FileSystem) (path : String) (recursive : Bool) (now : Nat)
      (fs' : FileSystem), WF fs →
      removeNodeFuel fuel fs path recursive now = .ok fs' → WF fs' := by
  intro fuel
  induction fuel with
  | zero =>
    intro fs path recursive now fs' _ h
    cases h
  | succ f ih =>
    intro fs path recursive now fs' hwf h
    rw [removeNodeFuel] at h
    match hpath : getNodeByPath fs path with
    | none =>
      simp only [hpath] at h
      cases h
    | some node =>
      simp only [hpath] at h
      by_cases hperm : hasPermission fs node.id .write = false
      · rw [if_pos hperm] at h
        cases h
      · rw [if_neg hperm] at h
        by_cases hde : node.isDirectory = true ∧ node.children ≠ [] ∧ recursive = false
        · rw [if_pos hde] at h
          cases h
        · rw [if_neg hde] at h
          match hpid : node.parentId with
          | none =>
            simp only [hpid] at h
            cases h
          | some parentId =>
            simp only [hpid] at h
            match hpn : mapFind fs.nodes parentId with
            | none =>
              simp only [hpn] at h
              cases h
            | some parent =>
              simp only [hpn] at h
              have hnodefind : mapFind fs.nodes node.id = some node :=
                getNodeByPath_find hwf hpath
              have hwf1 : WF (removeStepFs fs node parentId parent now) :=
                WF_removeStepFs hwf hnodefind hpid hpn
              by_cases hrec : node.isDirectory = true ∧ recursive = true
              · rw [if_pos hrec] at h
                exact rmChildrenFold_WF _
                  (fun a p b hb hok => ih a p true now b hb hok)
                  fs path node.children _
                  (fun a ha => by cases ha; exact hwf1) fs' h
              · rw [if_neg hrec] at h
                cases h
                exact hwf1

/-- `removeNode` preserves well-formedness. -/
theorem WF_removeNode {fs : FileSystem} {path : String} {recursive : Bool}
    {now : Nat} {fs' : FileSystem} (hwf : WF fs)
    (h : removeNode fs path recursive now = .ok fs') : WF fs' :=
  WF_removeNodeFuel _ fs path recursive now fs' hwf h

/-! ## Preservation through the command interpreter -/

/-- `createDirectory` touches no key that was absent, other than the fresh
one. -/
theorem createDirectory_find_none {fs : FileSystem} {parentId name newDirId : String}
    {now : Nat} {fs' : FileSystem}
    (h : createDirectory fs parentId name newDirId now = .ok fs')
    {c : String} (hc : mapFind fs.nodes c = none) (hne : c ≠ newDirId) :
    mapFind fs'.nodes c = none := by
  obtain ⟨_, parent, hp, _, _, hfs'⟩ := createDirectory_ok h
  subst hfs'
  have hcp : parentId ≠ c := by
    intro he
    rw [he, hc] at hp
    cases hp
  show mapFind (createDirNodes fs parentId name newDirId parent now) c = none
  unfold createDirNodes
  rw [mapFind_mapSet_ne _ _ _ _ hcp,
    mapFind_mapSet_ne _ _ _ _ (fun he => hne he.symm), hc]

/-- `createFile` touches no key that was absent, other than the fresh one. -/
theorem createFile_find_none {fs : FileSystem} {parentId name content ty newFileId : String}
    {now : Nat} {fs' : FileSystem}
    (h : createFile fs parentId name content ty newFileId now = .ok fs')
    {c : String} (hc : mapFind fs.nodes c = none) (hne : c ≠ newFileId) :
    mapFind fs'.nodes c = none := by
  obtain ⟨_, _, parent, blocks, hp, _, _, _, hfs'⟩ := createFile_ok h
  subst hfs'
  have hcp : parentId ≠ c := by
    intro he
    rw [he, hc] at hp
    cases hp
  show mapFind (createFileNodes fs parentId name content ty newFileId parent blocks now)
    c = none
  unfold createFileNodes
  rw [mapFind_mapSet_ne _ _ _ _ hcp,
    mapFind_mapSet_ne _ _ _ _ (fun he => hne he.symm), hc]

/-- The `mkdir` loop preserves well-formedness when the id supply is fresh
and injective. -/
theorem WF_mkdirGo (supply : Nat → String) (now : Nat) :
    ∀ (names : List String) (k : Nat) (fs fs' : FileSystem), WF fs →
      (∀ j, k ≤ j → mapFind fs.nodes (supply j) = none) →
      Function.Injective supply →
      mkdirGo supply now names k fs = .ok fs' → WF fs' := by
  intro names
  induction names with
  | nil =>
    intro k fs fs' hwf _ _ h
    cases h
    exact hwf
  | cons name rest ih =>
    intro k fs fs' hwf hfresh hinj h
    rw [mkdirGo] at h
    match hcd : createDirectory fs fs.currentDirectory name (supply k) now with
    | .error e =>
      simp only [hcd] at h
      cases h
    | .ok fs1 =>
      simp only [hcd] at h
      have hwf1 : WF fs1 := WF_createDirectory hwf (hfresh k le_rfl) hcd
      have hfresh1 : ∀ j, k + 1 ≤ j → mapFind fs1.nodes (supply j) = none := by
        intro j hj
        have hne : supply j ≠ supply k := fun he => by
          have := hinj he
          omega
        exact createDirectory_find_none hcd (hfresh j (by omega)) hne
      exact ih (k + 1) fs1 fs' hwf1 hfresh1 hinj h

/-- The `touch` loop preserves well-formedness when the id supply is fresh
and injective. -/
theorem WF_touchGo (supply : Nat → String) (now : Nat) :
    ∀ (names : List String) (k : Nat) (fs fs' : FileSystem), WF fs →
      (∀ j, k ≤ j → mapFind fs.nodes (supply j) = none) →
      Function.Injective supply →
      touchGo supply now names k fs = .ok fs' → WF fs' := by
  intro names
  induction names with
  | nil =>
    intro k fs fs' hwf _ _ h
    cases h
    exact hwf
  | cons name rest ih =>
    intro k fs fs' hwf hfresh hinj h
    rw [touchGo] at h
    match hcf : createFile fs fs.currentDirectory name "" "text/plain" (supply k) now with
    | .error e =>
      simp only [hcf] at h
      cases h
    | .ok fs1 =>
      simp only [hcf] at h
      have hwf1 : WF fs1 := WF_createFile hwf (hfresh k le_rfl) hcf
      have hfresh1 : ∀ j, k + 1 ≤ j → mapFind fs1.nodes (supply j) = none := by
        intro j hj
        have hne : supply j ≠ supply k := fun he => by
          have := hinj he
          omega
        exact createFile_find_none hcf (hfresh j (by omega)) hne
      exact ih (k + 1) fs1 fs' hwf1 hfresh1 hinj h

/-- The `rm` loop preserves well-formedness: each path is removed from the
snapshot of the last success, failures are skipped. -/
theorem WF_rmGo (recursive : Bool) (now : Nat) :
    ∀ (paths : List String) (fs : FileSystem) (errs : List String), WF fs →
      WF (rmGo recursive now paths fs errs).1 := by
  intro paths
  induction paths with
  | nil =>
    intro fs errs hwf
    exact hwf
  | cons path rest ih =>
    intro fs errs hwf
    show WF (match removeNode fs path recursive now with
      | .ok newFs => rmGo recursive now rest newFs errs
      | .error e => rmGo recursive now rest fs
          (errs ++ ["rm: " ++ path ++ ": " ++ e])).1
    match hr : removeNode fs path recursive now with
    | .ok newFs => exact ih newFs errs (WF_removeNode hwf hr)
    | .error e => exact ih fs _ hwf

/-- `ls` never changes the snapshot. -/
theorem cmdLs_snd (args : List String) (fs : FileSystem) : (cmdLs args fs).2 = fs := by
  have hdir : ∀ d, (lsDir fs d).2 = fs := by
    intro d
    unfold lsDir
    by_cases h : hasPermission fs d .read = false
    · rw [if_pos h]
    · rw [if_neg h]
  match args with
  | [] => exact hdir fs.currentDirectory
  | path :: rest =>
    show (match getNodeByPath fs path with
      | none => ("ls: " ++ path ++ ": No such file or directory", fs)
      | some node =>
        if node.isDirectory = false then (node.name, fs) else lsDir fs node.id).2 = fs
    match hn : getNodeByPath fs path with
    | none => rfl
    | some node =>
      simp only []
      by_cases hd : node.isDirectory = false
      · rw [if_pos hd]
      · rw [if_neg hd]
        exact hdir node.id

/-- `cat` never changes the snapshot. -/
theorem cmdCat_snd (args : List String) (fs : FileSystem) : (cmdCat args fs).2 = fs := by
  match args with
  | [] => rfl
  | path :: rest =>
    show (match getNodeByPath fs path with
      | none => ("cat: " ++ path ++ ": No such file or directory", fs)
      | some node =>
        if node.isDirectory then ("cat: " ++ path ++ ": Is a directory", fs)
        else if hasPermission fs node.id .read = false then ("cat: Permission denied", fs)
        else (node.content, fs)).2 = fs
    match hn : getNodeByPath fs path with
    | none => rfl
    | some node =>
      simp only []
      by_cases hd : node.isDirectory = true
      · rw [if_pos hd]
      · rw [if_neg hd]
        by_cases hp : hasPermission fs node.id .read = false
        · rw [if_pos hp]
        · rw [if_neg hp]

/-- `pwd` never changes the snapshot. -/
theorem cmdPwd_snd (fs : FileSystem) : (cmdPwd fs).2 = fs := rfl

/-- Changing only the current directory keeps every structural invariant. -/
theorem WF_setCurrentDirectory {fs : FileSystem} (hwf : WF fs) (d : String) :
    WF { fs with currentDirectory := d } :=
  ⟨hwf.keysNodup, hwf.keysMatch, hwf.blocksLen, hwf.childLink, hwf.childNodup,
    hwf.childNames, hwf.noSelfParent, hwf.blockOwner, hwf.fileBlocks, hwf.childrenDir⟩

/-- `cd` preserves well-formedness (it changes the current directory at
most). -/
theorem WF_cmdCd (args : List String) {fs : FileSystem} (hwf : WF fs) :
    WF (cmdCd args fs).2 := by
  match args with
  | [] =>
    show WF (match findRootNode fs with
      | some rootNode => ("", { fs with currentDirectory := rootNode.id })
      | none => ("cd: No root directory found", fs)).2
    match hr : findRootNode fs with
    | some rootNode => exact WF_setCurrentDirectory hwf _
    | none => exact hwf
  | path :: rest =>
    show WF (if path = ".." then
        match mapFind fs.nodes fs.currentDirectory with
        | none => ("", fs)
        | some currentDir =>
          match currentDir.parentId with
          | none => ("", fs)
          | some targetId =>
            if hasPermission fs targetId .execute = false then ("cd: Permission denied", fs)
            else ("", { fs with currentDirectory := targetId })
      else
        match getNodeByPath fs path with
        | none => ("cd: " ++ path ++ ": No such file or directory", fs)
        | some node =>
          if node.isDirectory = false then ("cd: " ++ path ++ ": Not a directory", fs)
          else if hasPermission fs node.id .execute = false then ("cd: Permission denied", fs)
          else ("", { fs with currentDirectory := node.id })).2
    by_cases hdd : path = ".."
    · rw [if_pos hdd]
      match hc : mapFind fs.nodes fs.currentDirectory with
      | none => exact hwf
      | some currentDir =>
        simp only []
        match hp : currentDir.parentId with
        | none => exact hwf
        | some targetId =>
          simp only []
          by_cases hperm : hasPermission fs targetId .execute = false
          · rw [if_pos hperm]
            exact hwf
          · rw [if_neg hperm]
            exact WF_setCurrentDirectory hwf _
    · rw [if_neg hdd]
      match hn : getNodeByPath fs path with
      | none => exact hwf
      | some node =>
        simp only []
        by_cases hd : node.isDirectory = false
        · rw [if_pos hd]
          exact hwf
        · rw [if_neg hd]
          by_cases hperm : hasPermission fs node.id .execute = false
          · rw [if_pos hperm]
            exact hwf
          · rw [if_neg hperm]
            exact WF_setCurrentDirectory hwf _

/-- `mkdir` preserves well-formedness for a fresh id supply. -/
theorem WF_cmdMkdir (args : List String) {fs : FileSystem} {supply : Nat → String}
    {now : Nat} (hwf : WF fs) (hsup : FreshSupply fs supply) :
    WF (cmdMkdir args fs supply now).2 := by
  match args with
  | [] => exact hwf
  | a :: rest =>
    show WF (match mkdirGo supply now (a :: rest) 0 fs with
      | .ok newFs => ("", newFs)
      | .error e => ("mkdir: " ++ e, fs)).2
    match hg : mkdirGo supply now (a :: rest) 0 fs with
    | .ok newFs =>
      exact WF_mkdirGo supply now (a :: rest) 0 fs newFs hwf
        (fun j _ => hsup.1 j) hsup.2 hg
    | .error e => exact hwf

/-- `touch` preserves well-formedness for a fresh id supply. -/
theorem WF_cmdTouch (args : List String) {fs : FileSystem} {supply : Nat → String}
    {now : Nat} (hwf : WF fs) (hsup : FreshSupply fs supply) :
    WF (cmdTouch args fs supply now).2 := by
  match args with
  | [] => exact hwf
  | a :: rest =>
    show WF (match touchGo supply now (a :: rest) 0 fs with
      | .ok newFs => ("", newFs)
      | .error e => ("touch: " ++ e, fs)).2
    match hg : touchGo supply now (a :: rest) 0 fs with
    | .ok newFs =>
      exact WF_touchGo supply now (a :: rest) 0 fs newFs hwf
        (fun j _ => hsup.1 j) hsup.2 hg
    | .error e => exact hwf

/-- `rm` preserves well-formedness. -/
theorem WF_cmdRm (args : List String) {fs : FileSystem} {now : Nat} (hwf : WF fs) :
    WF (cmdRm args fs now).2 := by
  match args with
  | [] => exact hwf
  | first :: rest =>
    show WF (if first = "-r" ∨ first = "-rf" then
        match rest with
        | [] => ("rm: missing operand", fs)
        | _ :: _ => rmOut (rmGo true now rest fs [])
      else rmOut (rmGo false now (first :: rest) fs [])).2
    by_cases hr : first = "-r" ∨ first = "-rf"
    · rw [if_pos hr]
      match rest with
      | [] => exact hwf
      | b :: more => exact WF_rmGo true now (b :: more) fs [] hwf
    · rw [if_neg hr]
      exact WF_rmGo false now (first :: rest) fs [] hwf

/-- One interpreted command line preserves well-formedness. -/
theorem WF_executeCommand {fs : FileSystem} (commandLine : String)
    {supply : Nat → String} {now : Nat} (hwf : WF fs) (hsup : FreshSupply fs supply) :
    WF (executeCommand fs commandLine supply now).2 := by
  show WF (if (parseCommand commandLine).1 = "ls" then
      cmdLs (parseCommand commandLine).2 fs
    else if (parseCommand commandLine).1 = "cd" then
      cmdCd (parseCommand commandLine).2 fs
    else if (parseCommand commandLine).1 = "mkdir" then
      cmdMkdir (parseCommand commandLine).2 fs supply now
    else if (parseCommand commandLine).1 = "touch" then
      cmdTouch (parseCommand commandLine).2 fs supply now
    else if (parseCommand commandLine).1 = "cat" then
      cmdCat (parseCommand commandLine).2 fs
    else if (parseCommand commandLine).1 = "pwd" then cmdPwd fs
    else if (parseCommand commandLine).1 = "rm" then
      cmdRm (parseCommand commandLine).2 fs now
    else ("Command not found: " ++ (parseCommand commandLine).1, fs)).2
  by_cases h1 : (parseCommand commandLine).1 = "ls"
  · rw [if_pos h1, cmdLs_snd]
    exact hwf
  · rw [if_neg h1]
    by_cases h2 : (parseCommand commandLine).1 = "cd"
    · rw [if_pos h2]
      exact WF_cmdCd _ hwf
    · rw [if_neg h2]
      by_cases h3 : (parseCommand commandLine).1 = "mkdir"
      · rw [if_pos h3]
        exact WF_cmdMkdir _ hwf hsup
      · rw [if_neg h3]
        by_cases h4 : (parseCommand commandLine).1 = "touch"
        · rw [if_pos h4]
          exact WF_cmdTouch _ hwf hsup
        · rw [if_neg h4]
          by_cases h5 : (parseCommand commandLine).1 = "cat"
          · rw [if_pos h5, cmdCat_snd]
            exact hwf
          · rw [if_neg h5]
            by_cases h6 : (parseCommand commandLine).1 = "pwd"
            · rw [if_pos h6]
              exact hwf
            · rw [if_neg h6]
              by_cases h7 : (parseCommand commandLine).1 = "rm"
              · rw [if_pos h7]
                exact WF_cmdRm _ hwf
              · rw [if_neg h7]
                exact hwf

/-- Every snapshot reachable from `initializeFileSystem` through the
engine operations and the command interpreter is well-formed. -/
theorem reachable_WF {fs : FileSystem} (h : Reachable fs) : WF fs := by
  induction h with
  | init blockSize totalBlocks rootId adminId now =>
    exact WF_initializeFileSystem blockSize totalBlocks rootId adminId now
  | mkdirStep fs parentId name newDirId now fs' _ hfresh hok ih =>
    exact WF_createDirectory ih hfresh hok
  | createFileStep fs parentId name content ty newFileId now fs' _ hfresh hok ih =>
    exact WF_createFile ih hfresh hok
  | moveStep fs nodeId newParentId now fs' _ hok ih =>
    exact WF_moveNode ih hok
  | removeStep fs path recursive now fs' _ hok ih =>
    exact WF_removeNode ih hok
  | execStep fs commandLine supply now _ hsup ih =>
    exact WF_executeCommand commandLine ih hsup

/-! ## C3: block conservation -/

/-- C3.  Block conservation holds in every snapshot reachable from
`initializeFileSystem` through the engine operations and the command
handlers: a stored block carries a non-null `fileId` exactly when some
file node's `blockAllocation.blocks` lists its index, and no index is
listed by two different file nodes. -/
theorem C3_block_conservation (fs : FileSystem) (h : Reachable fs) :
    (∀ i b, fs.blocks.get? i = some b →
      ((∃ fid, b.fileId = some fid) ↔
        ∃ p ∈ fs.nodes, p.2.isDirectory = false ∧ i ∈ p.2.blockAllocation.blocks)) ∧
    (∀ p q, p ∈ fs.nodes → q ∈ fs.nodes → p.1 ≠ q.1 →
      p.2.isDirectory = false → q.2.isDirectory = false →
      ∀ i, i ∈ p.2.blockAllocation.blocks → i ∉ q.2.blockAllocation.blocks) := by
  have hwf := reachable_WF h
  constructor
  · intro i b hb
    constructor
    · rintro ⟨fid, hfid⟩
      obtain ⟨n, hn, hnd, hni⟩ := hwf.blockOwner i b hb fid hfid
      exact ⟨(fid, n), mapFind_eq_some_mem hn, hnd, hni⟩
    · rintro ⟨p, hp, hpd, hpi⟩
      obtain ⟨b', hb', hbf⟩ := hwf.fileBlocks p hp hpd i hpi
      rw [hb] at hb'
      cases hb'
      exact ⟨p.1, hbf⟩
  · intro p q hp hq hne hpd hqd i hip hiq
    obtain ⟨b1, hb1, hf1⟩ := hwf.fileBlocks p hp hpd i hip
    obtain ⟨b2, hb2, hf2⟩ := hwf.fileBlocks q hq hqd i hiq
    rw [hb1] at hb2
    cases hb2
    rw [hf1] at hf2
    exact hne (Option.some.inj hf2)

/-- C3, instantiated at block 0 of a freshly initialized snapshot
(reachable by construction): the block is free exactly because no file
node claims index 0. -/
theorem C3_block_conservation_witness :
    (∃ fid, ({ id := 0, fileId := none, nextBlock := none, content := "" } : Block).fileId
      = some fid) ↔
    ∃ p ∈ (initializeFileSystem 10 5 "r3" "a3" 0).nodes,
      p.2.isDirectory = false ∧ 0 ∈ p.2.blockAllocation.blocks :=
  (C3_block_conservation _ (Reachable.init 10 5 "r3" "a3" 0)).1 0 _ rfl

/-! ## C4: sibling-name uniqueness -/

/-- C4.  Sibling-name uniqueness holds in every reachable snapshot: no
two distinct children of any node resolve to records with the same
(case-sensitive) name.  Moreover, on any snapshot each of
`createDirectory`, `createFile` and `moveNode` whose earlier guards pass
fails with its "already exists" diagnostic when the destination already
has a child of that name, so no mutation introduces a duplicate (and
`removeNode` only ever shrinks children lists, which the invariant over
all reachable snapshots covers). -/
theorem C4_sibling_name_uniqueness (fs : FileSystem) (h : Reachable fs) :
    (∀ p ∈ fs.nodes, ∀ c₁ c₂ m₁ m₂, c₁ ∈ p.2.children → c₂ ∈ p.2.children →
      c₁ ≠ c₂ → mapFind fs.nodes c₁ = some m₁ → mapFind fs.nodes c₂ = some m₂ →
      m₁.name ≠ m₂.name) ∧
    (∀ parentId name newDirId now parent,
      mapFind fs.nodes parentId = some parent →
      hasPermission fs parentId .write = true → parent.isDirectory = true →
      nameExists fs parent.children name = true →
      createDirectory fs parentId name newDirId now =
        .error ("A file or directory named \"" ++ name ++ "\" already exists")) ∧
    (∀ parentId name content ty newFileId now parent,
      mapFind fs.nodes parentId = some parent →
      hasPermission fs parentId .write = true → parent.isDirectory = true →
      nameExists fs parent.children name = true →
      createFile fs parentId name content ty newFileId now =
        .error ("A file or directory named \"" ++ name ++ "\" already exists")) ∧
    (∀ nodeId newParentId now node newParent,
      mapFind fs.nodes nodeId = some node →
      mapFind fs.nodes newParentId = some newParent →
      newParent.isDirectory = true →
      hasPermissionOpt fs node.parentId .write = true →
      hasPermission fs newParentId .write = true →
      (if node.isDirectory then cycleWalk fs (fs.nodes.length + 1) newParent node.id
        else some false : Option Bool) = some false →
      nameExists fs newParent.children node.name = true →
      moveNode fs nodeId newParentId now =
        .error ("A file or directory named \"" ++ node.name ++
          "\" already exists in the destination")) := by
  have hwf := reachable_WF h
  refine ⟨fun p hp => hwf.childNames p hp, ?_, ?_, ?_⟩
  · intro parentId name newDirId now parent hp hperm hpdir hdup
    unfold createDirectory
    rw [if_neg (by rw [hperm]; simp)]
    simp only [hp]
    rw [if_neg (by rw [hpdir]; simp), if_pos hdup]
  · intro parentId name content ty newFileId now parent hp hperm hpdir hdup
    unfold createFile
    rw [if_neg (by rw [hperm]; simp)]
    simp only [hp]
    rw [if_neg (by rw [hpdir]; simp), if_pos hdup]
  · intro nodeId newParentId now node newParent hnode hnp hnpdir hperm1 hperm2 hcyc hdup
    unfold moveNode
    simp only [hnode, hnp]
    rw [if_neg (by rw [hnpdir]; simp)]
    rw [if_neg (by rw [hperm1, hperm2]; simp)]
    simp only [hcyc]
    rw [if_pos hdup]

/-- C4, instantiated: on the reachable snapshot that already has a
directory `docs` under the root, creating another `docs` there fails
with the already-exists diagnostic. -/
theorem C4_sibling_name_uniqueness_witness :
    createDirectory c4Fs "root4" "docs" "d5" 2 =
      .error ("A file or directory named \"" ++ "docs" ++ "\" already exists") :=
  (C4_sibling_name_uniqueness c4Fs
      (Reachable.mkdirStep (initializeFileSystem 6 4 "root4" "admin4" 0)
        "root4" "docs" "d4" 1 c4Fs (Reachable.init 6 4 "root4" "admin4" 0)
        rfl rfl)).2.1
    "root4" "docs" "d5" 2 c4Root rfl rfl rfl rfl

/-! ## C8: the path round trip -/

/-- `find?` returns the element when it is the only match. -/
theorem find?_unique {α : Type} (pred : α → Bool) :
    ∀ (l : List α) (x : α), x ∈ l → pred x = true →
      (∀ y ∈ l, pred y = true → y = x) → l.find? pred = some x := by
  intro l
  induction l with
  | nil =>
    intro x hx
    simp at hx
  | cons y rest ih =>
    intro x hx hpx huniq
    by_cases hy : pred y = true
    · rw [List.find?_cons_of_pos _ hy]
      rw [huniq y (List.mem_cons_self _ _) hy]
    · rw [List.find?_cons_of_neg _ (by simpa using hy)]
      have hxr : x ∈ rest := by
        rcases List.mem_cons.mp hx with he | hr
        · subst he
          exact absurd hpx hy
        · exact hr
      exact ih x hxr hpx (fun z hz hp' => huniq z (List.mem_cons_of_mem _ hz) hp')

/-- The path walk distributes over appending segment lists. -/
theorem walkSegments_append (fs : FileSystem) :
    ∀ (l₁ l₂ : List String) (cur : FileSystemNode),
      walkSegments fs (l₁ ++ l₂) cur =
        match walkSegments fs l₁ cur with
        | some mid => walkSegments fs l₂ mid
        | none => none := by
  intro l₁
  induction l₁ with
  | nil =>
    intro l₂ cur
    rfl
  | cons part rest ih =>
    intro l₂ cur
    show walkSegments fs (part :: (rest ++ l₂)) cur = _
    rw [walkSegments]
    conv_rhs => rw [walkSegments]
    by_cases hd : cur.isDirectory = true
    · rw [if_pos hd, if_pos hd]
      match hf : cur.children.find? (fun cid =>
          match mapFind fs.nodes cid with
          | some child => child.name = part
          | none => false) with
      | none => rfl
      | some cid =>
        simp only [hf]
        match hc : mapFind fs.nodes cid with
        | none => rfl
        | some child =>
          simp only [hc]
          exact ih l₂ child
    · rw [if_neg hd, if_neg hd]

/-- Every chain node is stored in the map under its own id. -/
theorem chainUpTo_find {fs : FileSystem} {root : FileSystemNode} (hwf : WF fs)
    (hfr : findRootNode fs = some root) :
    ∀ {n : FileSystemNode} {ids : List String}, ChainUpTo fs root n ids →
      mapFind fs.nodes n.id = some n := by
  intro n ids h
  cases h with
  | base => exact findRootNode_find hwf hfr
  | step n p ids hpid hpfind hnfind hpdir hmemc hch => exact hnfind

/-- The record `findRootNode` returns has a null parent — that is what the
source's `find` selects on. -/
theorem findRootNode_parentId {fs : FileSystem} {root : FileSystemNode}
    (h : findRootNode fs = some root) : root.parentId = none := by
  unfold findRootNode at h
  obtain ⟨q, hq, he⟩ := Option.map_eq_some'.mp h
  have hpred := List.find?_some hq
  subst he
  simpa [Option.isNone_iff_eq_none] using hpred

/-- A reachable node guarantees the source's root lookup succeeds. -/
theorem rootReach_findRoot {fs : FileSystem} :
    ∀ {n : FileSystemNode}, RootReach fs n → ∃ root, findRootNode fs = some root := by
  intro n h
  induction h with
  | root n hn => exact ⟨n, hn⟩
  | child p n cid hp hcid hfind ih => exact ih

/-- On a well-formed snapshot every root-reachable node carries a parent
chain up to the root. -/
theorem rootReach_chain {fs : FileSystem} (hwf : WF fs) {root : FileSystemNode}
    (hfr : findRootNode fs = some root) :
    ∀ {n : FileSystemNode}, RootReach fs n → ∃ ids, ChainUpTo fs root n ids := by
  intro n h
  induction h with
  | root n hn =>
    rw [hfr] at hn
    cases hn
    exact ⟨[], ChainUpTo.base⟩
  | child p n cid hp hcid hfind ih =>
    obtain ⟨ids, hch⟩ := ih
    have hpfind : mapFind fs.nodes p.id = some p := chainUpTo_find hwf hfr hch
    have hpmem : (p.id, p) ∈ fs.nodes := mapFind_eq_some_mem hpfind
    obtain ⟨m, hm, hlink⟩ := hwf.childLink (p.id, p) hpmem cid hcid
    rw [hfind] at hm
    cases hm
    have hnid : n.id = cid := hwf.keysMatch (cid, n) (mapFind_eq_some_mem hfind)
    have hpdir : p.isDirectory = true :=
      hwf.childrenDir (p.id, p) hpmem (fun he => by rw [he] at hcid; cases hcid)
    refine ⟨n.id :: ids, ChainUpTo.step n p ids hlink hpfind ?_ hpdir ?_ hch⟩
    · rw [hnid]
      exact hfind
    · rw [hnid]
      exact hcid

/-- The parent chain of a node is unique: the walk up is deterministic. -/
theorem chainUpTo_unique {fs : FileSystem} {root : FileSystemNode}
    (hroot : root.parentId = none) :
    ∀ {n : FileSystemNode} {ids₁ : List String}, ChainUpTo fs root n ids₁ →
      ∀ {ids₂ : List String}, ChainUpTo fs root n ids₂ → ids₁ = ids₂ := by
  intro n ids₁ h1
  induction h1 with
  | base =>
    intro ids₂ h2
    cases h2 with
    | base => rfl
    | step n p ids hpid hpfind hnfind hpdir hmemc hch =>
      rw [hroot] at hpid
      cases hpid
  | step n p ids hpid hpfind hnfind hpdir hmemc hch ih =>
    intro ids₂ h2
    cases h2 with
    | base =>
      rw [hroot] at hpid
      cases hpid
    | step _ p' ids' hpid' hpfind' hnfind' hpdir' hmemc' hch' =>
      have hpe : p.id = p'.id := by
        rw [hpid] at hpid'
        exact Option.some.inj hpid'
      have hpp : p' = p := by
        rw [hpe, hpfind'] at hpfind
        exact Option.some.inj hpfind
      subst hpp
      rw [ih hch']

/-- Inverting a chain with a non-empty id list. -/
theorem chainUpTo_cons_head {fs : FileSystem} {root : FileSystemNode} :
    ∀ {m : FileSystemNode} {x : String} {rest : List String},
      ChainUpTo fs root m (x :: rest) →
      m.id = x ∧ mapFind fs.nodes m.id = some m := by
  intro m x rest h
  cases h with
  | step _ p ids hpid hpfind hnfind hpdir hmemc hch => exact ⟨rfl, hnfind⟩

/-- Every id of a chain heads a sub-chain no longer than the whole. -/
theorem chainUpTo_mem_suffix {fs : FileSystem} {root : FileSystemNode} :
    ∀ {q : FileSystemNode} {ids : List String}, ChainUpTo fs root q ids →
      ∀ x ∈ ids, ∃ m rest, ChainUpTo fs root m (x :: rest) ∧
        (x :: rest).length ≤ ids.length := by
  intro q ids h
  induction h with
  | base =>
    intro x hx
    simp at hx
  | step n p ids hpid hpfind hnfind hpdir hmemc hch ih =>
    intro x hx
    rcases List.mem_cons.mp hx with he | hx'
    · subst he
      exact ⟨n, ids, ChainUpTo.step n p ids hpid hpfind hnfind hpdir hmemc hch, le_rfl⟩
    · obtain ⟨m, rest, hm, hlen⟩ := ih x hx'
      exact ⟨m, rest, hm, Nat.le_succ_of_le hlen⟩

/-- The ids along a chain are pairwise distinct keys of the node map. -/
theorem chainUpTo_nodup {fs : FileSystem} {root : FileSystemNode} (hwf : WF fs)
    (hroot : root.parentId = none) :
    ∀ {n : FileSystemNode} {ids : List String}, ChainUpTo fs root n ids →
      ids.Nodup ∧ ∀ x ∈ ids, x ∈ mapKeys fs.nodes := by
  intro n ids h
  induction h with
  | base =>
    refine ⟨List.nodup_nil, ?_⟩
    intro x hx
    simp at hx
  | step n p ids hpid hpfind hnfind hpdir hmemc hch ih =>
    obtain ⟨hnd, hkeys⟩ := ih
    refine ⟨?_, ?_⟩
    · rw [List.nodup_cons]
      refine ⟨?_, hnd⟩
      intro hmem
      obtain ⟨m, rest, hm, hlen⟩ := chainUpTo_mem_suffix hch n.id hmem
      obtain ⟨hmid, hmfind⟩ := chainUpTo_cons_head hm
      have hmn : m = n := by
        rw [hmid, hnfind] at hmfind
        exact (Option.some.inj hmfind).symm
      subst hmn
      have houter : ChainUpTo fs root m (m.id :: ids) :=
        ChainUpTo.step m p ids hpid hpfind hnfind hpdir hmemc hch
      have heq : m.id :: rest = m.id :: ids := chainUpTo_unique hroot hm houter
      have hre : rest = ids := by
        injection heq
      rw [hre] at hlen
      simp only [List.length_cons] at hlen
      omega
    · intro x hx
      rcases List.mem_cons.mp hx with he | hx'
      · subst he
        exact List.mem_map.mpr ⟨(n.id, n), mapFind_eq_some_mem hnfind, rfl⟩
      · exact hkeys x hx'

/-- A chain is at most as long as the node map: the fuel `getNodePath`
passes to its walk always suffices. -/
theorem chainUpTo_length_le {fs : FileSystem} {root : FileSystemNode} (hwf : WF fs)
    (hroot : root.parentId = none) {n : FileSystemNode} {ids : List String}
    (h : ChainUpTo fs root n ids) : ids.length ≤ fs.nodes.length := by
  obtain ⟨hnd, hkeys⟩ := chainUpTo_nodup hwf hroot h
  have hsub : ids ⊆ mapKeys fs.nodes := fun x hx => hkeys x hx
  have hsp := List.Subperm.length_le (hnd.subperm hsub)
  simpa [mapKeys] using hsp

/-- Walking the segments `getNodePath` produces leads back down from the
root to the node itself. -/
theorem chainUpTo_walk {fs : FileSystem} {root : FileSystemNode} (hwf : WF fs)
    (hroot : root.parentId = none) :
    ∀ {n : FileSystemNode} {ids : List String}, ChainUpTo fs root n ids →
      ∀ fuel, ids.length < fuel →
      walkSegments fs (pathParts fs fuel n) root = some n := by
  intro n ids h
  induction h with
  | base =>
    intro fuel hlt
    cases fuel with
    | zero => omega
    | succ k =>
      rw [pathParts, hroot]
      rfl
  | step n p ids hpid hpfind hnfind hpdir hmemc hch ih =>
    intro fuel hlt
    cases fuel with
    | zero => omega
    | succ k =>
      have hlt' : ids.length < k := by
        simp only [List.length_cons] at hlt
        omega
      rw [pathParts]
      simp only [hpid, hpfind]
      rw [walkSegments_append]
      rw [ih k hlt']
      show walkSegments fs [n.name] p = some n
      rw [walkSegments, if_pos hpdir]
      have hfind : p.children.find? (fun cid =>
          match mapFind fs.nodes cid with
          | some child => child.name = n.name
          | none => false) = some n.id := by
        apply find?_unique _ p.children n.id hmemc
        · simp only [hnfind]
          simp
        · intro y hy hpy
          match hyf : mapFind fs.nodes y with
          | none =>
            simp only [hyf] at hpy
            cases hpy
          | some m =>
            simp only [hyf] at hpy
            have hyn : m.name = n.name := by simpa using hpy
            by_contra hne
            have hpmem : (p.id, p) ∈ fs.nodes := mapFind_eq_some_mem hpfind
            exact hwf.childNames (p.id, p) hpmem y n.id m n hy hmemc hne hyf hnfind hyn
      rw [hfind]
      simp only [hnfind]
      rfl

/-- Every segment `getNodePath` emits is the name of a non-root node. -/
theorem chainUpTo_parts_valid {fs : FileSystem} {root : FileSystemNode}
    (hroot : root.parentId = none)
    (hvalid : ∀ p ∈ fs.nodes, ∀ pid, p.2.parentId = some pid →
      p.2.name ≠ "" ∧ '/' ∉ p.2.name.data) :
    ∀ {n : FileSystemNode} {ids : List String}, ChainUpTo fs root n ids →
      ∀ fuel, ids.length < fuel →
      ∀ s ∈ pathParts fs fuel n, s ≠ "" ∧ '/' ∉ s.data := by
  intro n ids h
  induction h with
  | base =>
    intro fuel hlt s hs
    cases fuel with
    | zero => omega
    | succ k =>
      rw [pathParts, hroot] at hs
      simp at hs
  | step n p ids hpid hpfind hnfind hpdir hmemc hch ih =>
    intro fuel hlt s hs
    cases fuel with
    | zero => omega
    | succ k =>
      rw [pathParts] at hs
      simp only [hpid, hpfind] at hs
      rw [List.mem_append] at hs
      rcases hs with hs | hs
      · refine ih k ?_ s hs
        simp only [List.length_cons] at hlt
        omega
      · simp only [List.mem_singleton] at hs
        subst hs
        exact hvalid (n.id, n) (mapFind_eq_some_mem hnfind) p.id hpid

/-- `split('/')` of a slash-free character list is that list. -/
theorem splitSlashAux_no_slash :
    ∀ (l acc : List Char), '/' ∉ l → splitSlashAux l acc = [acc.reverse ++ l] := by
  intro l
  induction l with
  | nil =>
    intro acc _
    simp [splitSlashAux]
  | cons c cs ih =>
    intro acc hc
    have hcne : c ≠ '/' := fun he => hc (he ▸ List.mem_cons_self _ _)
    rw [splitSlashAux, if_neg hcne]
    rw [ih (c :: acc) (fun hm => hc (List.mem_cons_of_mem _ hm))]
    simp

/-- `split('/')` peels a slash-free prefix off at its first slash. -/
theorem splitSlashAux_slash_split :
    ∀ (l₁ l₂ acc : List Char), '/' ∉ l₁ →
      splitSlashAux (l₁ ++ '/' :: l₂) acc =
        (acc.reverse ++ l₁) :: splitSlashAux l₂ [] := by
  intro l₁
  induction l₁ with
  | nil =>
    intro l₂ acc _
    rw [List.nil_append, splitSlashAux, if_pos rfl]
    simp
  | cons c cs ih =>
    intro l₂ acc hc
    have hcne : c ≠ '/' := fun he => hc (he ▸ List.mem_cons_self _ _)
    rw [List.cons_append, splitSlashAux, if_neg hcne]
    rw [ih l₂ (c :: acc) (fun hm => hc (List.mem_cons_of_mem _ hm))]
    simp

/-- The character data of `parts.join('/')`. -/
theorem joinSlash_data :
    ∀ (rest : List String) (p₀ : String),
      (joinSlash (p₀ :: rest)).data = p₀.data ++ glue rest := by
  intro rest
  induction rest with
  | nil =>
    intro p₀
    simp [joinSlash, glue]
  | cons q rest ih =>
    intro p₀
    show (joinSlash ((p₀ ++ "/" ++ q) :: rest)).data = _
    rw [ih, glue]
    simp [String.data_append]

/-- Splitting the joined slash-free parts returns exactly the parts. -/
theorem splitSlashAux_join :
    ∀ (parts : List String) (p₀ : String), '/' ∉ p₀.data →
      (∀ s ∈ parts, '/' ∉ s.data) →
      splitSlashAux (p₀.data ++ glue parts) [] = p₀.data :: parts.map String.data := by
  intro parts
  induction parts with
  | nil =>
    intro p₀ h _
    rw [glue, List.append_nil, splitSlashAux_no_slash _ _ h]
    simp
  | cons q rest ih =>
    intro p₀ h hall
    rw [glue, splitSlashAux_slash_split _ _ _ h]
    rw [ih q (hall q (List.mem_cons_self _ _))
      (fun s hs => hall s (List.mem_cons_of_mem _ hs))]
    simp

/-- Re-packing character data into strings is the identity. -/
theorem map_mk_data : ∀ (l : List String), (l.map String.data).map String.mk = l := by
  intro l
  induction l with
  | nil => rfl
  | cons a l ih =>
    show String.mk a.data :: (l.map String.data).map String.mk = a :: l
    rw [ih]

/-- `pathSegments` undoes `"/" ++ parts.join('/')` for nonempty,
slash-free parts. -/
theorem pathSegments_joinSlash {parts : List String} (hne : parts ≠ [])
    (hvalid : ∀ s ∈ parts, s ≠ "" ∧ '/' ∉ s.data) :
    pathSegments ("/" ++ joinSlash parts) = parts := by
  match parts, hne with
  | p₀ :: rest, _ =>
    unfold pathSegments
    have hdata : ("/" ++ joinSlash (p₀ :: rest)).data = '/' :: (p₀.data ++ glue rest) := by
      rw [String.data_append, joinSlash_data]
      rfl
    rw [hdata, splitSlashAux, if_pos rfl]
    rw [splitSlashAux_join rest p₀ (hvalid p₀ (List.mem_cons_self _ _)).2
      (fun s hs => (hvalid s (List.mem_cons_of_mem _ hs)).2)]
    simp only [List.reverse_nil, List.map_cons]
    rw [show String.mk ([] : List Char) = "" from rfl]
    rw [show String.mk p₀.data = p₀ from rfl]
    rw [map_mk_data]
    rw [List.filter_cons_of_neg (by simp)]
    apply List.filter_eq_self.mpr
    intro s hs
    simpa using (hvalid s hs).1

/-- The absolute path of a non-root chain node is not the root path. -/
theorem joinSlash_ne_root {parts : List String} (hne : parts ≠ [])
    (hvalid : ∀ s ∈ parts, s ≠ "" ∧ '/' ∉ s.data) :
    "/" ++ joinSlash parts ≠ "/" := by
  match parts, hne with
  | p₀ :: rest, _ =>
    intro he
    have hd := congrArg String.data he
    rw [String.data_append, joinSlash_data] at hd
    rw [show ("/" : String).data = ['/'] from rfl] at hd
    simp [List.append_eq_nil] at hd
    exact (hvalid p₀ (List.mem_cons_self _ _)).1 (congrArg String.mk hd.1)

/-- C8 (amended).  On any reachable snapshot all of whose non-root node
names are nonempty and free of `/`, `getNodePath` and `getNodeByPath` are
mutually inverse on every node reachable from the root:
`getNodeByPath fs (getNodePath fs n.id) = some n`.  The name restriction
is necessary: the engine accepts names containing `/`, and on such a node
the round trip fails (see the counterexample). -/
theorem C8_roundtrip_amended (fs : FileSystem) (hre : Reachable fs)
    (hvalid : ∀ p ∈ fs.nodes, ∀ pid, p.2.parentId = some pid →
      p.2.name ≠ "" ∧ '/' ∉ p.2.name.data)
    (n : FileSystemNode) (hn : RootReach fs n) :
    getNodeByPath fs (getNodePath fs n.id) = some n := by
  have hwf := reachable_WF hre
  obtain ⟨root, hfr⟩ := rootReach_findRoot hn
  have hroot : root.parentId = none := findRootNode_parentId hfr
  obtain ⟨ids, hch⟩ := rootReach_chain hwf hfr hn
  have hnfind : mapFind fs.nodes n.id = some n := chainUpTo_find hwf hfr hch
  unfold getNodePath
  simp only [hnfind]
  match hpid : n.parentId with
  | none =>
    simp only []
    cases hch with
    | base =>
      show getNodeByPath fs "/" = some n
      unfold getNodeByPath
      rw [if_pos rfl, hfr]
    | step _ p ids' hpid' hpfind' hnfind' hpdir' hmemc' hch' =>
      rw [hpid] at hpid'
      cases hpid'
  | some pid =>
    simp only []
    cases hch with
    | base =>
      rw [hroot] at hpid
      cases hpid
    | step _ p ids' hpid' hpfind' hnfind' hpdir' hmemc' hch' =>
      have hchain : ChainUpTo fs root n (n.id :: ids') :=
        ChainUpTo.step n p ids' hpid' hpfind' hnfind' hpdir' hmemc' hch'
      have hlen : (n.id :: ids').length < fs.nodes.length + 1 := by
        have := chainUpTo_length_le hwf hroot hchain
        omega
      have hwalk := chainUpTo_walk hwf hroot hchain (fs.nodes.length + 1) hlen
      have hpartsvalid := chainUpTo_parts_valid hroot hvalid hchain
        (fs.nodes.length + 1) hlen
      have hpartsne : pathParts fs (fs.nodes.length + 1) n ≠ [] := by
        rw [pathParts]
        simp only [hpid', hpfind']
        simp
      have hsegs := pathSegments_joinSlash hpartsne hpartsvalid
      have hner := joinSlash_ne_root hpartsne hpartsvalid
      unfold getNodeByPath
      rw [if_neg hner, hfr]
      show walkSegments fs
        (pathSegments ("/" ++ joinSlash (pathParts fs (fs.nodes.length + 1) n))) root =
        some n
      rw [hsegs]
      exact hwalk

/-- C8, instantiated: the round trip holds at the root of a freshly
initialized snapshot, whose single node name table is slash-free. -/
theorem C8_roundtrip_amended_witness :
    getNodeByPath c8W (getNodePath c8W c8WRoot.id) = some c8WRoot := by
  apply C8_roundtrip_amended c8W (Reachable.init 9 3 "r8" "a8" 0)
  · intro p hp pid hpid
    simp only [c8W, initializeFileSystem, List.mem_singleton] at hp
    subst hp
    cases hpid
  · exact RootReach.root c8WRoot rfl

/-- C8 (counterexample to the claim as stated).  `createDirectory`
validates no names, so `a/b` is an accepted directory name; on the
resulting reachable snapshot that node is reachable from the root, its
absolute path is `/a/b`, yet resolving that path finds nothing — the
resolver re-splits the joined path at the embedded slash, so the claimed
inverse law fails. -/
theorem C8_roundtrip_counterexample :
    Reachable c8Fs ∧ RootReach c8Fs c8Node ∧ c8Node.name = "a/b" ∧
    getNodePath c8Fs c8Node.id = "/a/b" ∧
    getNodeByPath c8Fs (getNodePath c8Fs c8Node.id) = none := by
  refine ⟨?_, ?_, rfl, rfl, rfl⟩
  · exact Reachable.mkdirStep c8Base "root8" "a/b" "n8" 1 c8Fs
      (Reachable.init 10 5 "root8" "admin8" 0) rfl rfl
  · exact RootReach.child c8Root c8Node "n8" (RootReach.root c8Root rfl)
      (by decide) rfl

end FSim
